import Mathlib

set_option maxHeartbeats 4000000
set_option maxRecDepth 4000
set_option synthInstance.maxSize 1024

/-!
Shallow embedding of the structural-comparison core of the
`prefer-optional-chain` lint rule (file `prefer-optional-chain.ts`):
the `compareNodes` / `compareNodesUncached` structural comparator with its
pairwise cache, the `analyzeAndChainOperand` / `analyzeOrChainOperand`
operand analyzers, the `analyzeChain` chain analyzer, and the
empty-object-fallback detector of `create`.

Modelling conventions:
* AST nodes become the inductive `Node`.  Only the node kinds that the rule's
  code dispatches on are modelled; every other kind is represented by
  `Node.keyword` (a kind with an empty visitor-key list) or
  `Node.unknownNode` (a kind with no registered visitor keys).
* `isValidChainExpressionToLookThrough` reads `node.parent`.  Instead of
  parent links, every comparison carries a `ParentCtx` describing whether the
  node sits in a `MemberExpression.object` position, a
  `CallExpression.callee` position, or anywhere else; recursive calls
  recompute the child positions exactly as the real tree's parent links
  would give them.
* JavaScript reference identity (`===`) between `TemplateElement` nodes is
  modelled by an `objectId : Nat` carried by `Node.templateElem`: within one
  tree every node occurrence has a distinct id, so id equality is reference
  equality.
* The recursion of `compareNodes`/`compareNodesUncached` is not structurally
  terminating (the `TemplateLiteral` arm re-enters `compareNodes` on the very
  same pair), so the embedding is fuel-indexed: `none` means the recursion
  did not finish within the given depth, and a result that is `none` for
  every fuel is a genuine non-termination of the source.
-/

inductive NodeComparisonResult where
  /-- the two nodes are comparably the same -/
  | Equal
  /-- the left node is a subset of the right node -/
  | Subset
  /-- the left node is not the same or is a superset of the right node -/
  | Invalid
deriving DecidableEq

/-- Position of a node relative to its parent, as read off the real tree's
`node.parent` link by `isValidChainExpressionToLookThrough`. -/
inductive ParentCtx where
  | memberObject
  | callCallee
  | other
deriving DecidableEq

/-- Literal values (`TSESTree.Literal.value`). -/
inductive LitValue where
  | nullV
  | boolV (b : Bool)
  | numV (n : Int)
  | strV (s : String)
  | bigintV (s : String)
  | regexV (s : String)
deriving DecidableEq

/-- The eight allocation-producing node kinds listed in one case group of
`compareNodesUncached` (each evaluation produces a fresh value). -/
inductive AllocTag where
  | arrayExpr
  | arrowFunctionExpr
  | classExpr
  | functionExpr
  | jsxElement
  | jsxFragment
  | newExpr
deriving DecidableEq

/-- Logical-expression operators. -/
inductive LogicalOp where
  | andOp
  | orOp
  | nullishOp
deriving DecidableEq

/-- A `TemplateElement` entry of a template literal's `quasis` list:
`objectId` models JavaScript object identity (distinct node occurrences in a
tree always have distinct ids), `cooked` is `element.value.cooked`. -/
structure TElem where
  objectId : Nat
  cooked : Option String
deriving DecidableEq

mutual

/-- Expression-tree nodes (`TSESTree.Node`), restricted to the kinds the rule
inspects.  `objectExpr` keeps its property list (the empty-object detector
counts it); children of always-`Invalid` kinds that no code path ever reads
are dropped.  Node arrays are the mutually-defined `NodeList`, optional node
slots the mutually-defined `OptNode` (isomorphic to `List Node` and
`Option Node`; mutual inductives let equality be derived). -/
inductive Node where
  | ident (name : String)
  | privateIdent (name : String)
  | lit (value : LitValue) (raw : String)
  | member (object : Node) (property : Node) (computed : Bool) (optional : Bool)
  | call (callee : Node) (arguments : NodeList) (typeArguments : OptNode) (optional : Bool)
  | chainExpr (expression : Node)
  | nonNullExpr (expression : Node)
  | metaProperty (meta : Node) (property : Node)
  | binary (op : String) (left : Node) (right : Node)
  | logical (op : LogicalOp) (left : Node) (right : Node)
  | unary (op : String) (argument : Node)
  | conditional (test : Node) (consequent : Node) (alternate : Node)
  | templateLit (isTypeLevel : Bool) (quasis : List TElem) (expressions : NodeList)
  | templateElem (value : TElem)
  | keyword (tag : String)
  | assignmentExpr
  | updateExpr
  | yieldExpr
  | allocExpr (tag : AllocTag)
  | objectExpr (properties : NodeList)
  | unknownNode (tag : String)
deriving DecidableEq

/-- An array of nodes (a child slot holding an ordered node list). -/
inductive NodeList where
  | nil
  | cons (hd : Node) (tl : NodeList)
deriving DecidableEq

/-- A nullable node slot (`TSESTree`'s `X | undefined` child slots). -/
inductive OptNode where
  | none
  | some (x : Node)
deriving DecidableEq

end

/-- Number of elements of a node array (`array.length`). -/
def NodeList.length : NodeList → Nat
  | .nil => 0
  | .cons _ tl => 1 + NodeList.length tl

/-- Node kinds (`node.type` strings).  `templateLit true` is
`TSTemplateLiteralType`, `templateLit false` is `TemplateLiteral`; a
`keyword`/`unknownNode` tag is part of the kind, as the `type` string is. -/
inductive Kind where
  | ident
  | privateIdent
  | lit
  | member
  | call
  | chainExpr
  | nonNullExpr
  | metaProperty
  | binary
  | logical
  | unary
  | conditional
  | templateLit (isTypeLevel : Bool)
  | templateElem
  | keyword (tag : String)
  | assignmentExpr
  | updateExpr
  | yieldExpr
  | allocExpr (tag : AllocTag)
  | objectExpr
  | unknownNode (tag : String)
deriving DecidableEq

/-- The `node.type` tag of a node. -/
def kindOf : Node → Kind
  | .ident _ => .ident
  | .privateIdent _ => .privateIdent
  | .lit _ _ => .lit
  | .member _ _ _ _ => .member
  | .call _ _ _ _ => .call
  | .chainExpr _ => .chainExpr
  | .nonNullExpr _ => .nonNullExpr
  | .metaProperty _ _ => .metaProperty
  | .binary _ _ _ => .binary
  | .logical _ _ _ => .logical
  | .unary _ _ => .unary
  | .conditional _ _ _ => .conditional
  | .templateLit t _ _ => .templateLit t
  | .templateElem _ => .templateElem
  | .keyword t => .keyword t
  | .assignmentExpr => .assignmentExpr
  | .updateExpr => .updateExpr
  | .yieldExpr => .yieldExpr
  | .allocExpr t => .allocExpr t
  | .objectExpr _ => .objectExpr
  | .unknownNode t => .unknownNode t

/-- `node.type === AST_NODE_TYPES.PrivateIdentifier`. -/
def isPrivateIdentNode : Node → Bool
  | .privateIdent _ => true
  | _ => false

/-- `node.type === AST_NODE_TYPES.ChainExpression`. -/
def isChainExprNode : Node → Bool
  | .chainExpr _ => true
  | _ => false

/-- The kinds admitted by the cross-kind "subset optional chain" test of
`compareNodesUncached` (`CallExpression`, `Identifier`, `MemberExpression`,
`MetaProperty`). -/
def isSubsetCompatibleKind : Kind → Bool
  | .call => true
  | .ident => true
  | .member => true
  | .metaProperty => true
  | _ => false

/-- Shape of the (fuel-instantiated) recursive comparison that
`compareNodesUncached` calls back into. -/
abbrev CmpFun := Node → ParentCtx → Node → ParentCtx → Option NodeComparisonResult

/-- Element-wise part of `compareArrays`: every element pair must compare
`Equal`.  (The `elA == null || elB == null` guard of the source concerns
sparse-array holes, which none of the modelled child slots contain.)
`none` propagates fuel exhaustion; `some false` is any mismatch. -/
def allEqualWith (cmp : Node → Node → Option NodeComparisonResult) :
    NodeList → NodeList → Option Bool
  | .nil, .nil => some true
  | .cons a as, .cons b bs =>
    match cmp a b with
    | none => none
    | some .Equal => allEqualWith cmp as bs
    | some _ => some false
  | _, _ => some false

/-- `compareArrays`: length check, then element-wise `Equal`. -/
def compareArraysWith (cmp : Node → Node → Option NodeComparisonResult)
    (as bs : NodeList) : Option NodeComparisonResult :=
  if as.length = bs.length then
    match allEqualWith cmp as bs with
    | none => none
    | some true => some .Equal
    | some false => some .Invalid
  else some .Invalid

/-- The nullable-argument handling at the top of `compareNodes`, used for the
`typeArguments` slots (both absent compare `Equal`, absent-vs-present is
`Invalid`).  Both children sit in `other` positions. -/
def compareMaybeNodes (cmp : CmpFun) : OptNode → OptNode →
    Option NodeComparisonResult
  | .none, .none => some .Equal
  | .some a, .some b => cmp a .other b .other
  | _, _ => some .Invalid

/-- The child-slot loop of `compareByVisiting`: every listed child pair must
compare `Equal`, otherwise the node pair is `Invalid`.  All generic child
slots sit in `other` positions (no generic-path kind is a `MemberExpression`
or `CallExpression`, which have dedicated arms). -/
def visitSeq (cmp : CmpFun) : List (Node × Node) → Option NodeComparisonResult
  | [] => some .Equal
  | (a, b) :: rest =>
    match cmp a .other b .other with
    | none => none
    | some .Equal => visitSeq cmp rest
    | some _ => some .Invalid

/-- `isValidChainExpressionToLookThrough`, fused with the unwrap: yields the
chain expression's inner expression when the node is a `ChainExpression` not
sitting in a member-object or callee position (where the parentheses have
runtime meaning). -/
def chainLookThrough (n : Node) (c : ParentCtx) : Option Node :=
  match n, c with
  | .chainExpr e, .other => some e
  | _, _ => none

/-- The inner expression of a `TSNonNullExpression`, when the node is one. -/
def nonNullInner : Node → Option Node
  | .nonNullExpr e => some e
  | _ => none

/-- The cross-kind subset test (`switch (nodeB.type)` inside the
`nodeA.type !== nodeB.type` block, once `nodeA`'s kind was admitted): compare
`a` against the member's object or the call's callee; a non-`Invalid`
sub-result means `Subset`.  Private member properties are unsupported. -/
def crossKindSubsetTest (cmp : CmpFun) (a : Node) (ca : ParentCtx) :
    Node → Option NodeComparisonResult
  | .member o p _ _ =>
    if isPrivateIdentNode p then some .Invalid
    else
      match cmp a ca o .memberObject with
      | none => none
      | some .Invalid => some .Invalid
      | some _ => some .Subset
  | .call callee _ _ _ =>
    match cmp a ca callee .callCallee with
    | none => none
    | some .Invalid => some .Invalid
    | some _ => some .Subset
  | _ => some .Invalid

/-- The `nodeA.type !== nodeB.type` block of `compareNodesUncached`:
chain-expression look-through (blocked when the node is a member object or a
callee, i.e. when the source's `isValidChainExpressionToLookThrough` is
false), then `TSNonNullExpression` unwrapping, then the cross-kind subset
test against a `MemberExpression` object or a `CallExpression` callee. -/
def compareNodesDiffKind (cmp : CmpFun) (a : Node) (ca : ParentCtx)
    (b : Node) (cb : ParentCtx) : Option NodeComparisonResult :=
  match chainLookThrough a ca with
  | some e => cmp e .other b cb
  | none =>
  match chainLookThrough b cb with
  | some e => cmp a ca e .other
  | none =>
  match nonNullInner a with
  | some e => cmp e .other b cb
  | none =>
  match nonNullInner b with
  | some e => cmp a ca e .other
  | none =>
  if isSubsetCompatibleKind (kindOf a) then crossKindSubsetTest cmp a ca b
  else some .Invalid

/-- The `switch (nodeA.type)` of `compareNodesUncached`, entered when the two
kinds are equal (arms are therefore only ever taken with a matching `b`; the
`some .Invalid` catch-alls for a `b` of a different kind are unreachable).
The final arms replicate `compareByVisiting` for the generic kinds, with
their real visitor-key lists; `keyword` kinds have an empty key list
(`Equal`), `unknownNode` kinds have no registered keys (`Invalid`). -/
def compareNodesSameKind (cmp : CmpFun) (a : Node) (ca : ParentCtx)
    (b : Node) (cb : ParentCtx) : Option NodeComparisonResult :=
  match a with
  | .allocExpr _ => some .Invalid
  | .objectExpr _ => some .Invalid
  | .assignmentExpr => some .Invalid
  | .call acallee aargs atypeArgs _ =>
    match b with
    | .call bcallee bargs btypeArgs _ =>
      match cmp a ca bcallee .callCallee with
      | none => none
      | some .Invalid =>
        match cmp acallee .callCallee bcallee .callCallee with
        | none => none
        | some .Equal =>
          match compareArraysWith (fun x y => cmp x .other y .other) aargs bargs with
          | none => none
          | some .Equal =>
            match compareMaybeNodes cmp atypeArgs btypeArgs with
            | none => none
            | some .Equal => some .Equal
            | some _ => some .Invalid
          | some _ => some .Invalid
        | some _ => some .Invalid
      | some _ => some .Subset
    | _ => some .Invalid
  | .chainExpr _ =>
    match b with
    | .chainExpr be => cmp a ca be .other
    | _ => some .Invalid
  | .ident n =>
    match b with
    | .ident m => some (if n = m then .Equal else .Invalid)
    | _ => some .Invalid
  | .privateIdent n =>
    match b with
    | .privateIdent m => some (if n = m then .Equal else .Invalid)
    | _ => some .Invalid
  | .lit av araw =>
    match b with
    | .lit bv braw => some (if araw = braw ∧ av = bv then .Equal else .Invalid)
    | _ => some .Invalid
  | .member aobj aprop acomputed _ =>
    match b with
    | .member bobj bprop bcomputed _ =>
      if isPrivateIdentNode bprop then some .Invalid
      else
        match cmp a ca bobj .memberObject with
        | none => none
        | some .Invalid =>
          if acomputed ≠ bcomputed then some .Invalid
          else
            match cmp aobj .memberObject bobj .memberObject with
            | none => none
            | some .Equal => cmp aprop .other bprop .other
            | some _ => some .Invalid
        | some _ => some .Subset
    | _ => some .Invalid
  | .templateLit _ aquasis _ =>
    match b with
    | .templateLit _ bquasis _ =>
      -- `nodeA.quasis.every((elA, idx) => elA === nodeB.quasis[idx])`:
      -- length equality plus element-wise reference equality, i.e. list
      -- equality of the id-carrying template elements; on success the source
      -- re-enters `compareNodes(nodeA, nodeB)` on the same pair.
      if aquasis = bquasis then cmp a ca b cb else some .Invalid
    | _ => some .Invalid
  | .templateElem av =>
    match b with
    | .templateElem bv => some (if av.cooked = bv.cooked then .Equal else .Invalid)
    | _ => some .Invalid
  | .updateExpr => some .Invalid
  | .yieldExpr => some .Invalid
  | .nonNullExpr ae =>
    match b with
    | .nonNullExpr be => visitSeq cmp [(ae, be)]
    | _ => some .Invalid
  | .metaProperty ameta aprop =>
    match b with
    | .metaProperty bmeta bprop => visitSeq cmp [(ameta, bmeta), (aprop, bprop)]
    | _ => some .Invalid
  | .binary _ aleft aright =>
    match b with
    | .binary _ bleft bright => visitSeq cmp [(aleft, bleft), (aright, bright)]
    | _ => some .Invalid
  | .logical _ aleft aright =>
    match b with
    | .logical _ bleft bright => visitSeq cmp [(aleft, bleft), (aright, bright)]
    | _ => some .Invalid
  | .unary _ aarg =>
    match b with
    | .unary _ barg => visitSeq cmp [(aarg, barg)]
    | _ => some .Invalid
  | .conditional atest acons aalt =>
    match b with
    | .conditional btest bcons balt =>
      visitSeq cmp [(atest, btest), (acons, bcons), (aalt, balt)]
    | _ => some .Invalid
  | .keyword _ => some .Equal
  | .unknownNode _ => some .Invalid

/-- One step of `compareNodesUncached`: dispatch on kind equality. -/
def compareNodesUncached (cmp : CmpFun) (a : Node) (ca : ParentCtx)
    (b : Node) (cb : ParentCtx) : Option NodeComparisonResult :=
  if kindOf a = kindOf b then compareNodesSameKind cmp a ca b cb
  else compareNodesDiffKind cmp a ca b cb

/-- The comparison recursion itself (the denotation that the memoizing
`compareNodes` wrapper computes), indexed by recursion-depth fuel. -/
def compareNodesRec : Nat → Node → ParentCtx → Node → ParentCtx →
    Option NodeComparisonResult
  | 0, _, _, _, _ => none
  | f + 1, a, ca, b, cb => compareNodesUncached (compareNodesRec f) a ca b cb

example :
    compareNodesRec 10 (.ident "a") .other (.ident "a") .other =
      some .Equal := by decide

example :
    compareNodesRec 10 (.ident "a") .other
      (.member (.ident "a") (.ident "b") false false) .other =
      some .Subset := by decide

example :
    compareNodesRec 10 (.objectExpr .nil) .other (.objectExpr .nil) .other =
      some .Invalid := by decide

example :
    compareNodesRec 10
      (.member (.ident "a") (.ident "x") true false) .other
      (.member (.ident "a")
        (.member (.ident "x") (.ident "y") false false) true false) .other =
      some .Subset := by decide

/-! ## Operand classification data and the chain analyzer -/

/-- `NullishComparisonType` of the operand classifier. -/
inductive NullishComparisonType where
  | notEqualNullOrUndefined
  | equalNullOrUndefined
  | notStrictEqualNull
  | strictEqualNull
  | notStrictEqualUndefined
  | strictEqualUndefined
  | notBoolean
  | boolean
deriving DecidableEq

/-- A `ValidOperand` of the classifier: the compared name, the comparison
kind, and the source range (`node.loc.start` / `node.loc.end`) of the operand
expression, which is all `analyzeChain` reads off the `node` field. -/
structure ValidOperand where
  comparedName : Node
  comparisonType : NullishComparisonType
  nodeStart : Nat
  nodeEnd : Nat
deriving DecidableEq

/-- A reported diagnostic range (`context.report`'s `loc`). -/
structure Diagnostic where
  rangeStart : Nat
  rangeEnd : Nat
deriving DecidableEq

/-- `analyzeAndChainOperand`: which units an `&&` operand contributes.
`cmp` is the memoized `compareNodes` on compared names (both of which sit in
`other` positions); `next` is `chain[index + 1]`. -/
def analyzeAndChainOperand (cmp : Node → Node → NodeComparisonResult)
    (operand : ValidOperand) (next : Option ValidOperand) :
    Option (List ValidOperand) :=
  match operand.comparisonType with
  | .boolean => some [operand]
  | .notEqualNullOrUndefined => some [operand]
  | .notStrictEqualNull =>
    -- handle `x !== null && x !== undefined`
    match next with
    | Option.some n =>
      if n.comparisonType = .notStrictEqualUndefined ∧
          cmp operand.comparedName n.comparedName = .Equal then
        some [operand, n]
      else some [operand]
    | Option.none => some [operand]
  | .notStrictEqualUndefined =>
    -- handle `x !== undefined && x !== null`
    match next with
    | Option.some n =>
      if n.comparisonType = .notStrictEqualNull ∧
          cmp operand.comparedName n.comparedName = .Equal then
        some [operand, n]
      else some [operand]
    | Option.none => some [operand]
  | _ => none

/-- `analyzeOrChainOperand`: which units an `||` operand contributes. -/
def analyzeOrChainOperand (cmp : Node → Node → NodeComparisonResult)
    (operand : ValidOperand) (next : Option ValidOperand) :
    Option (List ValidOperand) :=
  match operand.comparisonType with
  | .notBoolean => some [operand]
  | .equalNullOrUndefined => some [operand]
  | .strictEqualNull =>
    -- handle `x === null || x === undefined`
    match next with
    | Option.some n =>
      if n.comparisonType = .strictEqualUndefined ∧
          cmp operand.comparedName n.comparedName = .Equal then
        some [operand, n]
      else none
    | Option.none => none
  | .strictEqualUndefined =>
    -- handle `x === undefined || x === null`
    match next with
    | Option.some n =>
      if n.comparisonType = .strictEqualNull ∧
          cmp operand.comparedName n.comparedName = .Equal then
        some [operand, n]
      else none
    | Option.none => none
  | _ => none

/-- The `maybeReportThenReset` closure's reporting half: a sub-chain longer
than one unit yields exactly one diagnostic spanning from the first unit's
source start to the last unit's source end. -/
def maybeReport : List ValidOperand → List Diagnostic
  | a :: b :: rest => [⟨a.nodeStart, ((b :: rest).getLastD a).nodeEnd⟩]
  | _ => []

/-- The scanning loop of `analyzeChain`: `rest` is the part of the flattened
chain not yet inspected, `subChain` the mutable sub-chain being grown.  An
operand rejected by the analyzer closes (reports and resets) the sub-chain; a
consumed pair skips the extra operand (`i += validatedOperands.length - 1`);
the comparison of the last accepted unit against the current unit appends on
`Subset`, drops on `Equal`, and closes-then-reseeds (with all validated
operands) on `Invalid`. -/
def analyzeChainLoop
    (analyzeOperand : ValidOperand → Option ValidOperand → Option (List ValidOperand))
    (cmp : Node → Node → NodeComparisonResult) :
    Nat → List ValidOperand → List ValidOperand → List Diagnostic
  | 0, _, subChain => maybeReport subChain
  | _ + 1, [], subChain => maybeReport subChain
  | steps + 1, op :: rest, subChain =>
    match analyzeOperand op rest.head? with
    | Option.none =>
      maybeReport subChain ++ analyzeChainLoop analyzeOperand cmp steps rest []
    | Option.some validated =>
      let rest' := rest.drop (validated.length - 1)
      let current := validated.getLastD op
      match subChain.getLast? with
      | Option.some lastOp =>
        match cmp lastOp.comparedName current.comparedName with
        | .Subset =>
          analyzeChainLoop analyzeOperand cmp steps rest' (subChain ++ [current])
        | .Invalid =>
          maybeReport subChain ++ analyzeChainLoop analyzeOperand cmp steps rest' validated
        | .Equal => analyzeChainLoop analyzeOperand cmp steps rest' subChain
      | Option.none =>
        analyzeChainLoop analyzeOperand cmp steps rest' (subChain ++ [current])

/-- `analyzeChain`: guard on chain length, select the operand analyzer by
operator (`??` has none), then scan.  The loop counter is the chain length —
the source's `for` loop runs at most that many iterations, and each iteration
consumes at least one operand, so the counter never reaches zero with
operands left. -/
def analyzeChain (operator : LogicalOp) (cmp : Node → Node → NodeComparisonResult)
    (chain : List ValidOperand) : List Diagnostic :=
  if chain.length ≤ 1 then []
  else
    match operator with
    | .andOp => analyzeChainLoop (analyzeAndChainOperand cmp) cmp chain.length chain []
    | .orOp => analyzeChainLoop (analyzeOrChainOperand cmp) cmp chain.length chain []
    | .nullishOp => []

/-- The comparison the analyzers feed on compared names: both names are
operands of binary/unary/logical expressions, hence in `other` positions.
The fuel instantiates the memoized `compareNodes`; `.Invalid` is never the
fallback on any input whose comparison terminates within the fuel. -/
def compareNamesFuelled (f : Nat) (a b : Node) : NodeComparisonResult :=
  (compareNodesRec f a .other b .other).getD .Invalid

/-! ## Measures and predicates used to state the claims -/

/-- Number of member/call access layers on a node's access spine (wrapper
nodes are transparent).  `compareNodes` results respect this measure:
`Equal` only between equal depths, `Subset` only weakly deeper on the
right. -/
def chainDepth : Node → Nat
  | .member o _ _ _ => chainDepth o + 1
  | .call c _ _ _ => chainDepth c + 1
  | .chainExpr e => chainDepth e
  | .nonNullExpr e => chainDepth e
  | _ => 0

mutual

/-- Chainable nodes: built only from kinds whose self-comparison the
comparator resolves structurally — excluding the allocation-producing kinds,
assignments, updates, yields, template literals (whose comparison does not
terminate), unregistered kinds, private member properties, and
chain-expression wrappers sitting in member-object/callee position (where
parenthesization blocks look-through). -/
def GoodNode : Node → Bool
  | .ident _ => true
  | .privateIdent _ => true
  | .lit _ _ => true
  | .member o p _ _ =>
      !isPrivateIdentNode p && !isChainExprNode o && GoodNode o && GoodNode p
  | .call c as ta _ => !isChainExprNode c && GoodNode c && GoodList as && GoodOpt ta
  | .chainExpr e => !isChainExprNode e && GoodNode e
  | .nonNullExpr e => GoodNode e
  | .metaProperty m p => GoodNode m && GoodNode p
  | .binary _ l r => GoodNode l && GoodNode r
  | .logical _ l r => GoodNode l && GoodNode r
  | .unary _ x => GoodNode x
  | .conditional t c a => GoodNode t && GoodNode c && GoodNode a
  | .templateElem _ => true
  | .keyword _ => true
  | .templateLit _ _ _ => false
  | .assignmentExpr => false
  | .updateExpr => false
  | .yieldExpr => false
  | .allocExpr _ => false
  | .objectExpr _ => false
  | .unknownNode _ => false

/-- `GoodNode` element-wise. -/
def GoodList : NodeList → Bool
  | .nil => true
  | .cons hd tl => GoodNode hd && GoodList tl

/-- `GoodNode` on an optional slot. -/
def GoodOpt : OptNode → Bool
  | .none => true
  | .some x => GoodNode x

end

/-- Removal of zero or more trailing access layers from a node: replacing a
member access by its object, a call by its callee, or a chain-expression /
non-null-assertion wrapper by its inner expression. -/
inductive Peeled : Node → Node → Prop where
  | refl (n : Node) : Peeled n n
  | member {o n : Node} (p : Node) (c opt : Bool) :
      Peeled o n → Peeled (.member o p c opt) n
  | call {c n : Node} (as : NodeList) (ta : OptNode) (opt : Bool) :
      Peeled c n → Peeled (.call c as ta opt) n
  | chain {e n : Node} : Peeled e n → Peeled (.chainExpr e) n
  | nonNull {e n : Node} : Peeled e n → Peeled (.nonNullExpr e) n

/-- How a `Subset` result relates the left node to a peel of the right node:
either the left node compares `Equal` to it (at the positions the recursion
used), or — the computed-property case — both are member accesses whose
objects compare `Equal` and whose properties compare as `Subset`; the left
node may first shed its own chain-expression / non-null wrappers. -/
inductive SubsetEv : Node → Node → Prop where
  | eq {a n : Node} (f : Nat) (ca cn : ParentCtx) :
      compareNodesRec f a ca n cn = some .Equal → SubsetEv a n
  | viaProp {ao ap o p : Node} {c : Bool} {aopt bopt : Bool}
      (f g : Nat) (ca cn ca' cn' : ParentCtx) :
      compareNodesRec f ao ca o cn = some .Equal →
      compareNodesRec g ap ca' p cn' = some .Subset →
      SubsetEv (.member ao ap c aopt) (.member o p c bopt)
  | chainLeft {e n : Node} : SubsetEv e n → SubsetEv (.chainExpr e) n
  | nonNullLeft {e n : Node} : SubsetEv e n → SubsetEv (.nonNullExpr e) n

/-! ## Empty-object fallback detector -/

mutual

/-- Modelled from the spec: the diagnostic sink's source-text view
(`sourceCode.getText`), which the core only consumes; rendered here as a
plain printer for the node kinds appearing in rewrites. -/
def getText : Node → String
  | .ident n => n
  | .lit _ raw => raw
  | .member o p c _ =>
      getText o ++ (if c then "[" ++ getText p ++ "]" else "." ++ getText p)
  | .call c as _ _ => getText c ++ "(" ++ getTextArgs as ++ ")"
  | .conditional t c a =>
      getText t ++ " ? " ++ getText c ++ " : " ++ getText a
  | .keyword t => t
  | _ => ""

/-- Modelled from the spec: comma-separated rendering of an argument list. -/
def getTextArgs : NodeList → String
  | .nil => ""
  | .cons hd .nil => getText hd
  | .cons hd tl => getText hd ++ ", " ++ getTextArgs tl

end

/-- Modelled from the spec: `util.getOperatorPrecedence(leftTsNode.kind,
operator) < OperatorPrecedence.LeftHandSide` — true exactly for operator
expressions binding looser than a member access (conditionals, binary /
logical / assignment / yield / unary / update operators and arrow
functions), false for left-hand-side / primary expressions (identifiers,
literals, member accesses, calls, `new` expressions, …). -/
def leftLowerThanMemberAccess : Node → Bool
  | .conditional _ _ _ => true
  | .binary _ _ _ => true
  | .logical _ _ _ => true
  | .unary _ _ => true
  | .assignmentExpr => true
  | .yieldExpr => true
  | .updateExpr => true
  | .allocExpr .arrowFunctionExpr => true
  | _ => false

/-- The suggestion fix text built by the empty-object fallback visitor:
`${maybeWrappedLeftNode}?.${maybeWrappedProperty}`, parenthesizing the left
operand's text exactly when its operator has lower precedence than member
access, and bracketing the property exactly when the access is computed. -/
def emptyObjectFixText (left prop : Node) (computed : Bool) : String :=
  (if leftLowerThanMemberAccess left then "(" ++ getText left ++ ")" else getText left)
    ++ "?." ++ (if computed then "[" ++ getText prop ++ "]" else getText prop)

/-- The guard of the `LogicalExpression[operator="||"],
LogicalExpression[operator="??"]` visitor: fires (and yields the suggestion
fix text) iff the right operand is an empty object literal and the parent is
a non-optional member access; `parent` is the combinator's parent node, when
any. -/
def emptyObjectFallbackFix (node : Node) (parent : Option Node) : Option String :=
  match node with
  | .logical op left right =>
    if op = .orOp ∨ op = .nullishOp then
      match right, parent with
      | .objectExpr props, Option.some (.member _ prop computed false) =>
        if props.length = 0 then
          Option.some (emptyObjectFixText left prop computed)
        else Option.none
      | _, _ => Option.none
    else Option.none
  | _ => Option.none

/-- `seenLogicals` after the empty-object visitor ran on `node`: the node is
added exactly when the visitor matched. -/
def seenAfterEmptyObjectCheck (seen : List Node) (node : Node)
    (parent : Option Node) : List Node :=
  if (emptyObjectFallbackFix node parent).isSome then node :: seen else seen

/-- The early-return guard of the chain-analysis visitor
(`if (seenLogicals.has(node)) return;`). -/
def chainAnalyzerSkips (seen : List Node) (node : Node) : Bool :=
  seen.contains node

/-! ## The memoizing `compareNodes` wrapper -/

/-- `COMPARE_NODES_CACHE`: the two nested `WeakMap`s keyed by node identity
become one association list keyed by the ordered pair of located nodes (a
located node — node plus parent position — stands for one tree
occurrence). -/
abbrev CompareCache :=
  List (((Node × ParentCtx) × (Node × ParentCtx)) × NodeComparisonResult)

/-- `COMPARE_NODES_CACHE.get(nodeA)?.get(nodeB)`. -/
def cacheLookup (σ : CompareCache)
    (k : (Node × ParentCtx) × (Node × ParentCtx)) : Option NodeComparisonResult :=
  (σ.find? (fun e => e.1 == k)).map (fun e => e.2)

/-- Shape of the cache-threading recursive comparison. -/
abbrev CmpCFun := Node → ParentCtx → Node → ParentCtx → CompareCache →
  Option (NodeComparisonResult × CompareCache)

/-- Cache-threading `compareArrays` element loop. -/
def allEqualWithC
    (cmp : Node → Node → CompareCache → Option (NodeComparisonResult × CompareCache)) :
    NodeList → NodeList → CompareCache → Option (Bool × CompareCache)
  | .nil, .nil, σ => some (true, σ)
  | .cons a as, .cons b bs, σ =>
    match cmp a b σ with
    | Option.none => Option.none
    | Option.some (.Equal, σ') => allEqualWithC cmp as bs σ'
    | Option.some (_, σ') => some (false, σ')
  | _, _, σ => some (false, σ)

/-- Cache-threading `compareArrays`. -/
def compareArraysWithC
    (cmp : Node → Node → CompareCache → Option (NodeComparisonResult × CompareCache))
    (as bs : NodeList) (σ : CompareCache) :
    Option (NodeComparisonResult × CompareCache) :=
  if as.length = bs.length then
    match allEqualWithC cmp as bs σ with
    | Option.none => Option.none
    | Option.some (true, σ') => some (.Equal, σ')
    | Option.some (false, σ') => some (.Invalid, σ')
  else some (.Invalid, σ)

/-- Cache-threading nullable-slot comparison (`typeArguments`). -/
def compareMaybeNodesC (cmp : CmpCFun) :
    OptNode → OptNode → CompareCache → Option (NodeComparisonResult × CompareCache)
  | .none, .none, σ => some (.Equal, σ)
  | .some a, .some b, σ => cmp a .other b .other σ
  | _, _, σ => some (.Invalid, σ)

/-- Cache-threading `compareByVisiting` child loop. -/
def visitSeqC (cmp : CmpCFun) :
    List (Node × Node) → CompareCache → Option (NodeComparisonResult × CompareCache)
  | [], σ => some (.Equal, σ)
  | (a, b) :: rest, σ =>
    match cmp a .other b .other σ with
    | Option.none => Option.none
    | Option.some (.Equal, σ') => visitSeqC cmp rest σ'
    | Option.some (_, σ') => some (.Invalid, σ')

/-- Cache-threading twin of `crossKindSubsetTest`. -/
def crossKindSubsetTestC (cmp : CmpCFun) (a : Node) (ca : ParentCtx) :
    Node → CompareCache → Option (NodeComparisonResult × CompareCache)
  | .member o p _ _, σ =>
    if isPrivateIdentNode p then some (.Invalid, σ)
    else
      match cmp a ca o .memberObject σ with
      | Option.none => Option.none
      | Option.some (.Invalid, σ') => some (.Invalid, σ')
      | Option.some (_, σ') => some (.Subset, σ')
  | .call callee _ _ _, σ =>
    match cmp a ca callee .callCallee σ with
    | Option.none => Option.none
    | Option.some (.Invalid, σ') => some (.Invalid, σ')
    | Option.some (_, σ') => some (.Subset, σ')
  | _, σ => some (.Invalid, σ)

/-- Cache-threading twin of `compareNodesDiffKind`. -/
def compareNodesDiffKindC (cmp : CmpCFun) (a : Node) (ca : ParentCtx)
    (b : Node) (cb : ParentCtx) (σ : CompareCache) :
    Option (NodeComparisonResult × CompareCache) :=
  match chainLookThrough a ca with
  | Option.some e => cmp e .other b cb σ
  | Option.none =>
  match chainLookThrough b cb with
  | Option.some e => cmp a ca e .other σ
  | Option.none =>
  match nonNullInner a with
  | Option.some e => cmp e .other b cb σ
  | Option.none =>
  match nonNullInner b with
  | Option.some e => cmp a ca e .other σ
  | Option.none =>
  if isSubsetCompatibleKind (kindOf a) then crossKindSubsetTestC cmp a ca b σ
  else some (.Invalid, σ)

/-- Cache-threading twin of `compareNodesSameKind`. -/
def compareNodesSameKindC (cmp : CmpCFun) (a : Node) (ca : ParentCtx)
    (b : Node) (cb : ParentCtx) (σ : CompareCache) :
    Option (NodeComparisonResult × CompareCache) :=
  match a with
  | .allocExpr _ => some (.Invalid, σ)
  | .objectExpr _ => some (.Invalid, σ)
  | .assignmentExpr => some (.Invalid, σ)
  | .call acallee aargs atypeArgs _ =>
    match b with
    | .call bcallee bargs btypeArgs _ =>
      match cmp a ca bcallee .callCallee σ with
      | Option.none => Option.none
      | Option.some (.Invalid, σ1) =>
        match cmp acallee .callCallee bcallee .callCallee σ1 with
        | Option.none => Option.none
        | Option.some (.Equal, σ2) =>
          match
            compareArraysWithC (fun x y σ' => cmp x .other y .other σ')
              aargs bargs σ2 with
          | Option.none => Option.none
          | Option.some (.Equal, σ3) =>
            match compareMaybeNodesC cmp atypeArgs btypeArgs σ3 with
            | Option.none => Option.none
            | Option.some (.Equal, σ4) => some (.Equal, σ4)
            | Option.some (_, σ4) => some (.Invalid, σ4)
          | Option.some (_, σ3) => some (.Invalid, σ3)
        | Option.some (_, σ2) => some (.Invalid, σ2)
      | Option.some (_, σ1) => some (.Subset, σ1)
    | _ => some (.Invalid, σ)
  | .chainExpr _ =>
    match b with
    | .chainExpr be => cmp a ca be .other σ
    | _ => some (.Invalid, σ)
  | .ident n =>
    match b with
    | .ident m => some (if n = m then .Equal else .Invalid, σ)
    | _ => some (.Invalid, σ)
  | .privateIdent n =>
    match b with
    | .privateIdent m => some (if n = m then .Equal else .Invalid, σ)
    | _ => some (.Invalid, σ)
  | .lit av araw =>
    match b with
    | .lit bv braw => some (if araw = braw ∧ av = bv then .Equal else .Invalid, σ)
    | _ => some (.Invalid, σ)
  | .member aobj aprop acomputed _ =>
    match b with
    | .member bobj bprop bcomputed _ =>
      if isPrivateIdentNode bprop then some (.Invalid, σ)
      else
        match cmp a ca bobj .memberObject σ with
        | Option.none => Option.none
        | Option.some (.Invalid, σ1) =>
          if acomputed ≠ bcomputed then some (.Invalid, σ1)
          else
            match cmp aobj .memberObject bobj .memberObject σ1 with
            | Option.none => Option.none
            | Option.some (.Equal, σ2) => cmp aprop .other bprop .other σ2
            | Option.some (_, σ2) => some (.Invalid, σ2)
        | Option.some (_, σ1) => some (.Subset, σ1)
    | _ => some (.Invalid, σ)
  | .templateLit _ aquasis _ =>
    match b with
    | .templateLit _ bquasis _ =>
      if aquasis = bquasis then cmp a ca b cb σ else some (.Invalid, σ)
    | _ => some (.Invalid, σ)
  | .templateElem av =>
    match b with
    | .templateElem bv =>
      some (if av.cooked = bv.cooked then .Equal else .Invalid, σ)
    | _ => some (.Invalid, σ)
  | .updateExpr => some (.Invalid, σ)
  | .yieldExpr => some (.Invalid, σ)
  | .nonNullExpr ae =>
    match b with
    | .nonNullExpr be => visitSeqC cmp [(ae, be)] σ
    | _ => some (.Invalid, σ)
  | .metaProperty ameta aprop =>
    match b with
    | .metaProperty bmeta bprop => visitSeqC cmp [(ameta, bmeta), (aprop, bprop)] σ
    | _ => some (.Invalid, σ)
  | .binary _ aleft aright =>
    match b with
    | .binary _ bleft bright => visitSeqC cmp [(aleft, bleft), (aright, bright)] σ
    | _ => some (.Invalid, σ)
  | .logical _ aleft aright =>
    match b with
    | .logical _ bleft bright => visitSeqC cmp [(aleft, bleft), (aright, bright)] σ
    | _ => some (.Invalid, σ)
  | .unary _ aarg =>
    match b with
    | .unary _ barg => visitSeqC cmp [(aarg, barg)] σ
    | _ => some (.Invalid, σ)
  | .conditional atest acons aalt =>
    match b with
    | .conditional btest bcons balt =>
      visitSeqC cmp [(atest, btest), (acons, bcons), (aalt, balt)] σ
    | _ => some (.Invalid, σ)
  | .keyword _ => some (.Equal, σ)
  | .unknownNode _ => some (.Invalid, σ)

/-- Cache-threading twin of `compareNodesUncached`. -/
def compareNodesUncachedC (cmp : CmpCFun) (a : Node) (ca : ParentCtx)
    (b : Node) (cb : ParentCtx) (σ : CompareCache) :
    Option (NodeComparisonResult × CompareCache) :=
  if kindOf a = kindOf b then compareNodesSameKindC cmp a ca b cb σ
  else compareNodesDiffKindC cmp a ca b cb σ

/-- The memoizing `compareNodes` itself: nullable-argument handling, cache
lookup, computation through `compareNodesUncached` (whose recursive calls
come back through this wrapper, threading the cache), cache insertion. -/
def compareNodesCached : Nat → Option (Node × ParentCtx) →
    Option (Node × ParentCtx) → CompareCache →
    Option (NodeComparisonResult × CompareCache)
  | _, Option.none, Option.none, σ => some (.Equal, σ)
  | _, Option.none, Option.some _, σ => some (.Invalid, σ)
  | _, Option.some _, Option.none, σ => some (.Invalid, σ)
  | 0, Option.some _, Option.some _, _ => Option.none
  | f + 1, Option.some (a, ca), Option.some (b, cb), σ =>
    match cacheLookup σ ((a, ca), (b, cb)) with
    | Option.some r => some (r, σ)
    | Option.none =>
      match
        compareNodesUncachedC
          (fun x cx y cy σ' =>
            compareNodesCached f (Option.some (x, cx)) (Option.some (y, cy)) σ')
          a ca b cb σ with
      | Option.none => Option.none
      | Option.some (r, σ') => some (r, (((a, ca), (b, cb)), r) :: σ')

/-- The nullable-argument view of the cacheless recursion, for stating that
the cached wrapper refines it. -/
def compareNodesOptRec (f : Nat) :
    Option (Node × ParentCtx) → Option (Node × ParentCtx) →
    Option NodeComparisonResult
  | Option.none, Option.none => some .Equal
  | Option.none, Option.some _ => some .Invalid
  | Option.some _, Option.none => some .Invalid
  | Option.some (a, ca), Option.some (b, cb) => compareNodesRec f a ca b cb

/-- Cache entries that record exactly what the cacheless recursion computes
for their key. -/
def CacheConsistent (σ : CompareCache) : Prop :=
  ∀ e ∈ σ, ∃ f, compareNodesRec f e.1.1.1 e.1.1.2 e.1.2.1 e.1.2.2 = some e.2

/-- The always-`Invalid` kind groups of the equal-kind switch: the eight
allocation-producing kinds plus `AssignmentExpression`, `UpdateExpression`
and `YieldExpression`. -/
def isAllocationOrMutationKind : Node → Bool
  | .allocExpr _ => true
  | .objectExpr _ => true
  | .assignmentExpr => true
  | .updateExpr => true
  | .yieldExpr => true
  | _ => false

/-- Pointwise refinement between fuel-instantiated comparisons. -/
def SubCmp (c c' : CmpFun) : Prop :=
  ∀ a ca b cb r, c a ca b cb = some r → c' a ca b cb = some r

/-! ## Concrete instances used by the claim statements -/

/-- The empty object literal `{}`. -/
def emptyObj : Node := .objectExpr .nil

/-- `a[x]` (computed member access). -/
def memAX : Node := .member (.ident "a") (.ident "x") true false

/-- `a[x.y]` (computed member access on a deeper property). -/
def memAXY : Node :=
  .member (.ident "a") (.member (.ident "x") (.ident "y") false false)
    true false

/-- A template literal `\x60a\x60` (one quasi, no substitutions). -/
def tmplA : Node := .templateLit false [⟨0, Option.some "a"⟩] .nil

/-- A second occurrence of the same template literal text: equal cooked
value, distinct `TemplateElement` object identity. -/
def tmplA2 : Node := .templateLit false [⟨1, Option.some "a"⟩] .nil

/-- The operand `x !== null` of `x !== null && x !== undefined && x.y`. -/
def andUnitNull : ValidOperand := ⟨.ident "x", .notStrictEqualNull, 0, 10⟩

/-- The operand `x !== undefined` of the same chain. -/
def andUnitUndef : ValidOperand :=
  ⟨.ident "x", .notStrictEqualUndefined, 14, 29⟩

/-- The operand `x.y` of the same chain (a truthiness check). -/
def andUnitBool : ValidOperand :=
  ⟨.member (.ident "x") (.ident "y") false false, .boolean, 33, 36⟩

/-- The operand `x.y` as it appears in the two-operand chain
`x !== null && x.y`. -/
def andUnitBoolShort : ValidOperand :=
  ⟨.member (.ident "x") (.ident "y") false false, .boolean, 14, 17⟩

/-- The operand `x !== undefined` of the two-operand chain
`x !== undefined && x.y`. -/
def andUnitUndefShort : ValidOperand :=
  ⟨.ident "x", .notStrictEqualUndefined, 0, 15⟩

/-- The operand `x.y` of the same chain. -/
def andUnitBoolAfterUndef : ValidOperand :=
  ⟨.member (.ident "x") (.ident "y") false false, .boolean, 19, 22⟩

/-- The operand `x === undefined` of the reversed run
`x === undefined || x === null`. -/
def orUnitUndefFirst : ValidOperand :=
  ⟨.ident "x", .strictEqualUndefined, 0, 15⟩

/-- The operand `x === null` of the same reversed run. -/
def orUnitNullSecond : ValidOperand := ⟨.ident "x", .strictEqualNull, 19, 29⟩

/-- The operand `x === null` of `x === null || x === undefined`. -/
def orUnitNull : ValidOperand := ⟨.ident "x", .strictEqualNull, 0, 10⟩

/-- The operand `x === undefined` of the same run. -/
def orUnitUndef : ValidOperand := ⟨.ident "x", .strictEqualUndefined, 14, 29⟩

/-- The combinator `foo || \x7b\x7d`. -/
def emptyOrFoo : Node := .logical .orOp (.ident "foo") (.objectExpr .nil)

/-- Its parent `(foo || \x7b\x7d).bar`. -/
def emptyOrFooAccess : Node := .member emptyOrFoo (.ident "bar") false false

/-- The combinator `(a ? b : c) || \x7b\x7d`. -/
def emptyOrCond : Node :=
  .logical .orOp (.conditional (.ident "a") (.ident "b") (.ident "c"))
    (.objectExpr .nil)

/-- Its parent `((a ? b : c) || \x7b\x7d).bar`. -/
def emptyOrCondAccess : Node := .member emptyOrCond (.ident "bar") false false

/-- Its computed-access parent `(foo || \x7b\x7d)[bar]`. -/
def emptyOrFooComputedAccess : Node :=
  .member emptyOrFoo (.ident "bar") true false

/-! ## Fuel monotonicity of the comparison recursion -/

theorem allEqualWith_mono {cmp cmp' : Node → Node → Option NodeComparisonResult}
    (h : ∀ x y v, cmp x y = some v → cmp' x y = some v) :
    ∀ (as bs : NodeList) (v : Bool), allEqualWith cmp as bs = some v →
      allEqualWith cmp' as bs = some v
  | .nil, .nil, _, hv => hv
  | .nil, .cons _ _, _, hv => hv
  | .cons _ _, .nil, _, hv => hv
  | .cons a as, .cons b bs, v, hv => by
    simp only [allEqualWith] at hv ⊢
    cases hc : cmp a b with
    | none => rw [hc] at hv; exact absurd hv (by simp)
    | some r1 =>
      rw [hc] at hv
      rw [h a b r1 hc]
      cases r1 with
      | Equal => exact allEqualWith_mono h as bs v hv
      | Subset => exact hv
      | Invalid => exact hv

theorem compareArraysWith_mono {cmp cmp' : Node → Node → Option NodeComparisonResult}
    (h : ∀ x y v, cmp x y = some v → cmp' x y = some v)
    (as bs : NodeList) (r : NodeComparisonResult)
    (hr : compareArraysWith cmp as bs = some r) :
    compareArraysWith cmp' as bs = some r := by
  unfold compareArraysWith at hr ⊢
  by_cases hl : as.length = bs.length
  · simp only [hl, if_pos rfl] at hr ⊢
    cases hv : allEqualWith cmp as bs with
    | none => rw [hv] at hr; exact absurd hr (by simp)
    | some v =>
      rw [hv] at hr
      rw [allEqualWith_mono h as bs v hv]
      exact hr
  · simp only [if_neg hl] at hr ⊢
    exact hr

theorem compareMaybeNodes_mono {c c' : CmpFun} (h : SubCmp c c')
    (x y : OptNode) (r : NodeComparisonResult)
    (hr : compareMaybeNodes c x y = some r) : compareMaybeNodes c' x y = some r := by
  cases x <;> cases y <;> simp only [compareMaybeNodes] at hr ⊢
  · exact hr
  · exact hr
  · exact hr
  · exact h _ _ _ _ _ hr

theorem visitSeq_mono {c c' : CmpFun} (h : SubCmp c c') :
    ∀ ps r, visitSeq c ps = some r → visitSeq c' ps = some r := by
  intro ps
  induction ps with
  | nil => intro r hr; exact hr
  | cons p ps ih =>
    intro r hr
    obtain ⟨a, b⟩ := p
    simp only [visitSeq] at hr ⊢
    cases hc : c a .other b .other with
    | none => rw [hc] at hr; exact absurd hr (by simp)
    | some r1 =>
      rw [hc] at hr
      rw [h _ _ _ _ _ hc]
      cases r1 with
      | Equal => exact ih r hr
      | Subset => exact hr
      | Invalid => exact hr

theorem compareNodesDiffKind_mono {c c' : CmpFun} (h : SubCmp c c')
    (a : Node) (ca : ParentCtx) (b : Node) (cb : ParentCtx)
    (r : NodeComparisonResult)
    (hr : compareNodesDiffKind c a ca b cb = some r) :
    compareNodesDiffKind c' a ca b cb = some r := by
  unfold compareNodesDiffKind at hr ⊢
  cases h1 : chainLookThrough a ca with
  | some e => rw [h1] at hr; exact h _ _ _ _ _ hr
  | none =>
  rw [h1] at hr
  cases h2 : chainLookThrough b cb with
  | some e => rw [h2] at hr; exact h _ _ _ _ _ hr
  | none =>
  rw [h2] at hr
  cases h3 : nonNullInner a with
  | some e => rw [h3] at hr; exact h _ _ _ _ _ hr
  | none =>
  rw [h3] at hr
  cases h4 : nonNullInner b with
  | some e => rw [h4] at hr; exact h _ _ _ _ _ hr
  | none =>
  rw [h4] at hr
  by_cases h5 : isSubsetCompatibleKind (kindOf a) = true
  · rw [if_pos h5] at hr ⊢
    cases b <;> simp only [crossKindSubsetTest] at hr ⊢ <;> try exact hr
    · rename_i o p pc popt
      by_cases h6 : isPrivateIdentNode p = true
      · rw [if_pos h6] at hr ⊢; exact hr
      · rw [if_neg h6] at hr ⊢
        cases h7 : c a ca o .memberObject with
        | none => rw [h7] at hr; exact absurd hr (by simp)
        | some r1 =>
          rw [h7] at hr
          rw [h _ _ _ _ _ h7]
          cases r1 <;> exact hr
    · rename_i callee cargs cta copt
      cases h7 : c a ca callee .callCallee with
      | none => rw [h7] at hr; exact absurd hr (by simp)
      | some r1 =>
        rw [h7] at hr
        rw [h _ _ _ _ _ h7]
        cases r1 <;> exact hr
  · rw [if_neg h5] at hr ⊢
    exact hr

theorem compareNodesSameKind_mono {c c' : CmpFun} (h : SubCmp c c')
    (a : Node) (ca : ParentCtx) (b : Node) (cb : ParentCtx)
    (r : NodeComparisonResult)
    (hr : compareNodesSameKind c a ca b cb = some r) :
    compareNodesSameKind c' a ca b cb = some r := by
  cases a
  case ident n =>
    cases b <;> simp only [compareNodesSameKind] at hr ⊢ <;> exact hr
  case privateIdent n =>
    cases b <;> simp only [compareNodesSameKind] at hr ⊢ <;> exact hr
  case lit v raw =>
    cases b <;> simp only [compareNodesSameKind] at hr ⊢ <;> exact hr
  case templateElem v =>
    cases b <;> simp only [compareNodesSameKind] at hr ⊢ <;> exact hr
  case keyword t =>
    cases b <;> simp only [compareNodesSameKind] at hr ⊢ <;> exact hr
  case unknownNode t =>
    cases b <;> simp only [compareNodesSameKind] at hr ⊢ <;> exact hr
  case assignmentExpr =>
    cases b <;> simp only [compareNodesSameKind] at hr ⊢ <;> exact hr
  case updateExpr =>
    cases b <;> simp only [compareNodesSameKind] at hr ⊢ <;> exact hr
  case yieldExpr =>
    cases b <;> simp only [compareNodesSameKind] at hr ⊢ <;> exact hr
  case allocExpr t =>
    cases b <;> simp only [compareNodesSameKind] at hr ⊢ <;> exact hr
  case objectExpr ps =>
    cases b <;> simp only [compareNodesSameKind] at hr ⊢ <;> exact hr
  case chainExpr ae =>
    cases b <;> simp only [compareNodesSameKind] at hr ⊢ <;> try exact hr
    · exact h _ _ _ _ _ hr
  case nonNullExpr ae =>
    cases b <;> simp only [compareNodesSameKind] at hr ⊢ <;> try exact hr
    · exact visitSeq_mono h _ _ hr
  case metaProperty am ap =>
    cases b <;> simp only [compareNodesSameKind] at hr ⊢ <;> try exact hr
    · exact visitSeq_mono h _ _ hr
  case binary op al ar =>
    cases b <;> simp only [compareNodesSameKind] at hr ⊢ <;> try exact hr
    · exact visitSeq_mono h _ _ hr
  case logical op al ar =>
    cases b <;> simp only [compareNodesSameKind] at hr ⊢ <;> try exact hr
    · exact visitSeq_mono h _ _ hr
  case unary op aa =>
    cases b <;> simp only [compareNodesSameKind] at hr ⊢ <;> try exact hr
    · exact visitSeq_mono h _ _ hr
  case conditional at' ac aa =>
    cases b <;> simp only [compareNodesSameKind] at hr ⊢ <;> try exact hr
    · exact visitSeq_mono h _ _ hr
  case templateLit ty aq ae =>
    cases b <;> simp only [compareNodesSameKind] at hr ⊢ <;> try exact hr
    · rename_i ty' bq be
      by_cases h6 : aq = bq
      · rw [if_pos h6] at hr ⊢
        exact h _ _ _ _ _ hr
      · rw [if_neg h6] at hr ⊢
        exact hr
  case call acallee aargs atargs aopt =>
    cases b <;> simp only [compareNodesSameKind] at hr ⊢ <;> try exact hr
    · rename_i bcallee bargs btargs bopt
      cases h1 : c (.call acallee aargs atargs aopt) ca bcallee .callCallee with
      | none => rw [h1] at hr; exact absurd hr (by simp)
      | some r1 =>
        rw [h1] at hr
        rw [h _ _ _ _ _ h1]
        cases r1 with
        | Equal => exact hr
        | Subset => exact hr
        | Invalid =>
          cases h2 : c acallee .callCallee bcallee .callCallee with
          | none => rw [h2] at hr; exact absurd hr (by simp)
          | some r2 =>
            rw [h2] at hr
            rw [h _ _ _ _ _ h2]
            cases r2 with
            | Subset => exact hr
            | Invalid => exact hr
            | Equal =>
              cases h3 : compareArraysWith (fun x y => c x .other y .other) aargs bargs with
              | none => rw [h3] at hr; exact absurd hr (by simp)
              | some r3 =>
                rw [h3] at hr
                rw [compareArraysWith_mono (fun x y v hv => h _ _ _ _ _ hv) aargs bargs r3 h3]
                cases r3 with
                | Subset => exact hr
                | Invalid => exact hr
                | Equal =>
                  cases h4 : compareMaybeNodes c atargs btargs with
                  | none => rw [h4] at hr; exact absurd hr (by simp)
                  | some r4 =>
                    rw [h4] at hr
                    rw [compareMaybeNodes_mono h atargs btargs r4 h4]
                    cases r4 <;> exact hr
  case member aobj aprop acomputed aopt =>
    cases b <;> simp only [compareNodesSameKind] at hr ⊢ <;> try exact hr
    · rename_i bobj bprop bcomputed bopt
      by_cases h6 : isPrivateIdentNode bprop = true
      · rw [if_pos h6] at hr ⊢
        exact hr
      · rw [if_neg h6] at hr ⊢
        cases h1 : c (.member aobj aprop acomputed aopt) ca bobj .memberObject with
        | none => rw [h1] at hr; exact absurd hr (by simp)
        | some r1 =>
          rw [h1] at hr
          rw [h _ _ _ _ _ h1]
          cases r1 with
          | Equal => exact hr
          | Subset => exact hr
          | Invalid =>
            by_cases h7 : acomputed = bcomputed
            · rw [if_neg (by simp [h7])] at hr ⊢
              cases h2 : c aobj .memberObject bobj .memberObject with
              | none => rw [h2] at hr; exact absurd hr (by simp)
              | some r2 =>
                rw [h2] at hr
                rw [h _ _ _ _ _ h2]
                cases r2 with
                | Subset => exact hr
                | Invalid => exact hr
                | Equal => exact h _ _ _ _ _ hr
            · rw [if_pos (by simp [h7])] at hr ⊢
              exact hr

theorem compareNodesRec_mono : ∀ f, SubCmp (compareNodesRec f) (compareNodesRec (f + 1)) := by
  intro f
  induction f with
  | zero => intro a ca b cb r hr; simp [compareNodesRec] at hr
  | succ f ih =>
    intro a ca b cb r hr
    simp only [compareNodesRec, compareNodesUncached] at hr ⊢
    by_cases hk : kindOf a = kindOf b
    · rw [if_pos hk] at hr ⊢
      exact compareNodesSameKind_mono ih a ca b cb r hr
    · rw [if_neg hk] at hr ⊢
      exact compareNodesDiffKind_mono ih a ca b cb r hr

theorem compareNodesRec_mono_le : ∀ {f g : Nat}, f ≤ g →
    SubCmp (compareNodesRec f) (compareNodesRec g) := by
  intro f g hfg
  induction hfg with
  | refl => exact fun a ca b cb r hr => hr
  | step _ ih =>
    exact fun a ca b cb r hr => compareNodesRec_mono _ a ca b cb r (ih a ca b cb r hr)

/-! ## Termination and the depth discipline on chainable nodes -/

/-- Membership in a node array. -/
def NodeList.Mem (x : Node) : NodeList → Prop
  | .nil => False
  | .cons hd tl => x = hd ∨ NodeList.Mem x tl

theorem NodeList.sizeOf_lt_of_mem {x : Node} :
    ∀ {l : NodeList}, NodeList.Mem x l → sizeOf x < sizeOf l
  | .nil, h => nomatch h
  | .cons hd tl, h => by
    cases h with
    | inl he => subst he; simp [NodeList.cons.sizeOf_spec]; omega
    | inr ht =>
      have := NodeList.sizeOf_lt_of_mem ht
      simp [NodeList.cons.sizeOf_spec]; omega

theorem GoodList_mem {x : Node} :
    ∀ {l : NodeList}, GoodList l = true → NodeList.Mem x l → GoodNode x = true
  | .nil, _, h => nomatch h
  | .cons hd tl, hg, h => by
    simp only [GoodList, Bool.and_eq_true] at hg
    cases h with
    | inl he => subst he; exact hg.1
    | inr ht => exact GoodList_mem hg.2 ht

theorem allEqualWith_total :
    ∀ (as bs : NodeList),
      (∀ x y, NodeList.Mem x as → NodeList.Mem y bs →
        ∃ f r, compareNodesRec f x .other y .other = some r) →
      ∃ f v, allEqualWith (fun x y => compareNodesRec f x .other y .other) as bs = some v
  | .nil, .nil, _ => ⟨1, true, rfl⟩
  | .nil, .cons _ _, _ => ⟨1, false, rfl⟩
  | .cons _ _, .nil, _ => ⟨1, false, rfl⟩
  | .cons a as, .cons b bs, H => by
    obtain ⟨f1, r1, h1⟩ := H a b (Or.inl rfl) (Or.inl rfl)
    obtain ⟨f2, v2, h2⟩ :=
      allEqualWith_total as bs (fun x y hx hy => H x y (Or.inr hx) (Or.inr hy))
    refine ⟨max f1 f2, if r1 = .Equal then v2 else false, ?_⟩
    have h1' := compareNodesRec_mono_le (Nat.le_max_left f1 f2) _ _ _ _ _ h1
    have h2' : allEqualWith (fun x y => compareNodesRec (max f1 f2) x .other y .other)
        as bs = some v2 :=
      allEqualWith_mono
        (fun x y v hv => compareNodesRec_mono_le (Nat.le_max_right f1 f2) _ _ _ _ _ hv)
        as bs v2 h2
    simp only [allEqualWith]
    rw [h1']
    cases r1 <;> simp [h2']

theorem visitSeq_total :
    ∀ (ps : List (Node × Node)),
      (∀ p ∈ ps, ∃ f r, compareNodesRec f p.1 .other p.2 .other = some r) →
      ∃ f r, visitSeq (compareNodesRec f) ps = some r
  | [], _ => ⟨1, .Equal, rfl⟩
  | (a, b) :: ps, H => by
    obtain ⟨f1, r1, h1⟩ := H (a, b) (by simp)
    obtain ⟨f2, r2, h2⟩ := visitSeq_total ps (fun p hp => H p (by simp [hp]))
    refine ⟨max f1 f2, if r1 = .Equal then r2 else .Invalid, ?_⟩
    have h1' := compareNodesRec_mono_le (Nat.le_max_left f1 f2) _ _ _ _ _ h1
    have h2' : visitSeq (compareNodesRec (max f1 f2)) ps = some r2 :=
      visitSeq_mono
        (fun x cx y cy v hv => compareNodesRec_mono_le (Nat.le_max_right f1 f2) _ _ _ _ _ hv)
        ps r2 h2
    simp only [visitSeq]
    rw [h1']
    cases r1 <;> simp [h2']

theorem chainLookThrough_some {a : Node} {ca : ParentCtx} {e : Node}
    (h : chainLookThrough a ca = some e) : a = .chainExpr e ∧ ca = .other := by
  cases a <;> cases ca <;> simp_all [chainLookThrough]

theorem nonNullInner_some {a e : Node} (h : nonNullInner a = some e) :
    a = .nonNullExpr e := by
  cases a <;> simp_all [nonNullInner]

theorem crossKindSubsetTest_default (cmp : CmpFun) (a : Node) (ca : ParentCtx)
    (b : Node) (hb1 : kindOf b ≠ .member) (hb2 : kindOf b ≠ .call) :
    crossKindSubsetTest cmp a ca b = some .Invalid := by
  cases b <;> simp_all [crossKindSubsetTest, kindOf]

theorem compareNodesRec_succ_same {a b : Node} {ca cb : ParentCtx}
    (hk : kindOf a = kindOf b) (f : Nat) :
    compareNodesRec (f + 1) a ca b cb =
      compareNodesSameKind (compareNodesRec f) a ca b cb := by
  simp only [compareNodesRec, compareNodesUncached, if_pos hk]

theorem compareNodesRec_succ_diff {a b : Node} {ca cb : ParentCtx}
    (hk : ¬kindOf a = kindOf b) (f : Nat) :
    compareNodesRec (f + 1) a ca b cb =
      compareNodesDiffKind (compareNodesRec f) a ca b cb := by
  simp only [compareNodesRec, compareNodesUncached, if_neg hk]

/-- On chainable (`GoodNode`) inputs the comparison recursion terminates, and
its result respects the access-depth measure: `Equal` relates equal depths,
`Subset` only weakly shallower-to-deeper. -/
theorem goodCompareTotal :
    ∀ (n : Nat) (a : Node) (ca : ParentCtx) (b : Node) (cb : ParentCtx),
      sizeOf a + sizeOf b = n → GoodNode a = true → GoodNode b = true →
      ∃ f r, compareNodesRec f a ca b cb = some r ∧
        (r = .Equal → chainDepth a = chainDepth b) ∧
        (r = .Subset → chainDepth a ≤ chainDepth b) := by
  intro n
  induction n using Nat.strong_induction_on with
  | _ n ih =>
  intro a ca b cb hsz hGa hGb
  by_cases hk : kindOf a = kindOf b
  case neg =>
    cases h1 : chainLookThrough a ca with
    | some e =>
      obtain ⟨ha, hca⟩ := chainLookThrough_some h1
      subst ha; subst hca
      simp only [GoodNode, Bool.and_eq_true] at hGa
      obtain ⟨f, r, hf, hdE, hdS⟩ :=
        ih (sizeOf e + sizeOf b) (by simp [Node.chainExpr.sizeOf_spec] at hsz; omega)
          e .other b cb rfl hGa.2 hGb
      exact ⟨f + 1, r, by
          rw [compareNodesRec_succ_diff hk]
          simp only [compareNodesDiffKind, h1]
          exact hf,
        fun h => by simpa [chainDepth] using hdE h,
        fun h => by simpa [chainDepth] using hdS h⟩
    | none =>
    cases h2 : chainLookThrough b cb with
    | some e =>
      obtain ⟨hb, hcb⟩ := chainLookThrough_some h2
      subst hb; subst hcb
      simp only [GoodNode, Bool.and_eq_true] at hGb
      obtain ⟨f, r, hf, hdE, hdS⟩ :=
        ih (sizeOf a + sizeOf e) (by simp [Node.chainExpr.sizeOf_spec] at hsz; omega)
          a ca e .other rfl hGa hGb.2
      exact ⟨f + 1, r, by
          rw [compareNodesRec_succ_diff hk]
          simp only [compareNodesDiffKind, h1, h2]
          exact hf,
        fun h => by simpa [chainDepth] using hdE h,
        fun h => by simpa [chainDepth] using hdS h⟩
    | none =>
    cases h3 : nonNullInner a with
    | some e =>
      have ha := nonNullInner_some h3
      subst ha
      simp only [GoodNode] at hGa
      obtain ⟨f, r, hf, hdE, hdS⟩ :=
        ih (sizeOf e + sizeOf b) (by simp [Node.nonNullExpr.sizeOf_spec] at hsz; omega)
          e .other b cb rfl hGa hGb
      exact ⟨f + 1, r, by
          rw [compareNodesRec_succ_diff hk]
          simp only [compareNodesDiffKind, h1, h2, h3]
          exact hf,
        fun h => by simpa [chainDepth] using hdE h,
        fun h => by simpa [chainDepth] using hdS h⟩
    | none =>
    cases h4 : nonNullInner b with
    | some e =>
      have hb := nonNullInner_some h4
      subst hb
      simp only [GoodNode] at hGb
      obtain ⟨f, r, hf, hdE, hdS⟩ :=
        ih (sizeOf a + sizeOf e) (by simp [Node.nonNullExpr.sizeOf_spec] at hsz; omega)
          a ca e .other rfl hGa hGb
      exact ⟨f + 1, r, by
          rw [compareNodesRec_succ_diff hk]
          simp only [compareNodesDiffKind, h1, h2, h3, h4]
          exact hf,
        fun h => by simpa [chainDepth] using hdE h,
        fun h => by simpa [chainDepth] using hdS h⟩
    | none =>
    by_cases h5 : isSubsetCompatibleKind (kindOf a) = true
    · have hstep : ∀ f, compareNodesRec (f + 1) a ca b cb =
          crossKindSubsetTest (compareNodesRec f) a ca b := by
        intro f
        rw [compareNodesRec_succ_diff hk]
        simp only [compareNodesDiffKind, h1, h2, h3, h4]
        rw [if_pos h5]
      cases b <;>
        first
        | (refine ⟨1, .Invalid, ?_, fun h => absurd h (by decide),
             fun h => absurd h (by decide)⟩
           rw [hstep 0]
           rfl)
        | skip
      · -- b is a member access
        rename_i bobj bprop bcomp bopt
        have hgb := hGb
        simp only [GoodNode, Bool.and_eq_true] at hgb
        have hpriv : ¬isPrivateIdentNode bprop = true := by
          simp only [Bool.not_eq_true]
          simpa using hgb.1.1.1
        obtain ⟨f1, r1, hf1, hdE1, hdS1⟩ :=
          ih (sizeOf a + sizeOf bobj)
            (by simp [Node.member.sizeOf_spec] at hsz; omega)
            a ca bobj .memberObject rfl hGa hgb.1.2
        cases r1 with
        | Invalid =>
          refine ⟨f1 + 1, .Invalid, ?_, fun h => absurd h (by decide),
            fun h => absurd h (by decide)⟩
          rw [hstep f1]
          simp only [crossKindSubsetTest, if_neg hpriv, hf1]
        | Equal =>
          refine ⟨f1 + 1, .Subset, ?_, fun h => absurd h (by decide), fun _ => ?_⟩
          · rw [hstep f1]
            simp only [crossKindSubsetTest, if_neg hpriv, hf1]
          · have := hdE1 rfl
            simp only [chainDepth]
            omega
        | Subset =>
          refine ⟨f1 + 1, .Subset, ?_, fun h => absurd h (by decide), fun _ => ?_⟩
          · rw [hstep f1]
            simp only [crossKindSubsetTest, if_neg hpriv, hf1]
          · have := hdS1 rfl
            simp only [chainDepth]
            omega
      · -- b is a call
        rename_i bcallee bargs btargs bopt
        have hgb := hGb
        simp only [GoodNode, Bool.and_eq_true] at hgb
        obtain ⟨f1, r1, hf1, hdE1, hdS1⟩ :=
          ih (sizeOf a + sizeOf bcallee)
            (by simp [Node.call.sizeOf_spec] at hsz; omega)
            a ca bcallee .callCallee rfl hGa hgb.1.1.2
        cases r1 with
        | Invalid =>
          refine ⟨f1 + 1, .Invalid, ?_, fun h => absurd h (by decide),
            fun h => absurd h (by decide)⟩
          rw [hstep f1]
          simp only [crossKindSubsetTest, hf1]
        | Equal =>
          refine ⟨f1 + 1, .Subset, ?_, fun h => absurd h (by decide), fun _ => ?_⟩
          · rw [hstep f1]
            simp only [crossKindSubsetTest, hf1]
          · have := hdE1 rfl
            simp only [chainDepth]
            omega
        | Subset =>
          refine ⟨f1 + 1, .Subset, ?_, fun h => absurd h (by decide), fun _ => ?_⟩
          · rw [hstep f1]
            simp only [crossKindSubsetTest, hf1]
          · have := hdS1 rfl
            simp only [chainDepth]
            omega
    · refine ⟨1, .Invalid, ?_, fun h => absurd h (by decide),
        fun h => absurd h (by decide)⟩
      rw [compareNodesRec_succ_diff hk]
      simp only [compareNodesDiffKind, h1, h2, h3, h4]
      rw [if_neg h5]
  case pos =>
    cases a <;> cases b <;> simp [kindOf] at hk
    · -- ident / ident
      rename_i n1 n2
      by_cases hnm : n1 = n2
      · exact ⟨1, .Equal, by
            rw [compareNodesRec_succ_same (by simp [kindOf])]
            simp [compareNodesSameKind, hnm],
          fun _ => rfl, fun h => absurd h (by decide)⟩
      · exact ⟨1, .Invalid, by
            rw [compareNodesRec_succ_same (by simp [kindOf])]
            simp [compareNodesSameKind, hnm],
          fun h => absurd h (by decide), fun h => absurd h (by decide)⟩
    · -- privateIdent / privateIdent
      rename_i n1 n2
      by_cases hnm : n1 = n2
      · exact ⟨1, .Equal, by
            rw [compareNodesRec_succ_same (by simp [kindOf])]
            simp [compareNodesSameKind, hnm],
          fun _ => rfl, fun h => absurd h (by decide)⟩
      · exact ⟨1, .Invalid, by
            rw [compareNodesRec_succ_same (by simp [kindOf])]
            simp [compareNodesSameKind, hnm],
          fun h => absurd h (by decide), fun h => absurd h (by decide)⟩
    · -- lit / lit
      rename_i v1 raw1 v2 raw2
      by_cases hvr : raw1 = raw2 ∧ v1 = v2
      · exact ⟨1, .Equal, by
            rw [compareNodesRec_succ_same (by simp [kindOf])]
            simp only [compareNodesSameKind]
            rw [if_pos hvr],
          fun _ => rfl, fun h => absurd h (by decide)⟩
      · exact ⟨1, .Invalid, by
            rw [compareNodesRec_succ_same (by simp [kindOf])]
            simp only [compareNodesSameKind]
            rw [if_neg hvr],
          fun h => absurd h (by decide), fun h => absurd h (by decide)⟩
    · -- member / member
      rename_i aobj aprop acomp aopt bobj bprop bcomp bopt
      have hga := hGa
      have hgb := hGb
      simp only [GoodNode, Bool.and_eq_true] at hga hgb
      have hpriv : ¬isPrivateIdentNode bprop = true := by
        simp only [Bool.not_eq_true]
        simpa using hgb.1.1.1
      have hkk : kindOf (Node.member aobj aprop acomp aopt) =
          kindOf (Node.member bobj bprop bcomp bopt) := by simp [kindOf]
      obtain ⟨f1, r1, hf1, hdE1, hdS1⟩ :=
        ih (sizeOf (Node.member aobj aprop acomp aopt) + sizeOf bobj)
          (by simp [Node.member.sizeOf_spec] at hsz ⊢; omega)
          (Node.member aobj aprop acomp aopt) ca bobj .memberObject rfl hGa hgb.1.2
      cases r1 with
      | Equal =>
        refine ⟨f1 + 1, .Subset, ?_, fun h => absurd h (by decide), fun _ => ?_⟩
        · rw [compareNodesRec_succ_same hkk]
          simp only [compareNodesSameKind, if_neg hpriv, hf1]
        · have h' := hdE1 rfl
          simp only [chainDepth] at h' ⊢
          omega
      | Subset =>
        refine ⟨f1 + 1, .Subset, ?_, fun h => absurd h (by decide), fun _ => ?_⟩
        · rw [compareNodesRec_succ_same hkk]
          simp only [compareNodesSameKind, if_neg hpriv, hf1]
        · have h' := hdS1 rfl
          simp only [chainDepth] at h' ⊢
          omega
      | Invalid =>
        by_cases hcomp : acomp = bcomp
        · subst hcomp
          obtain ⟨f2, r2, hf2, hdE2, _⟩ :=
            ih (sizeOf aobj + sizeOf bobj)
              (by simp [Node.member.sizeOf_spec] at hsz ⊢; omega)
              aobj .memberObject bobj .memberObject rfl hga.1.2 hgb.1.2
          cases r2 with
          | Equal =>
            obtain ⟨f3, r3, hf3, _, _⟩ :=
              ih (sizeOf aprop + sizeOf bprop)
                (by simp [Node.member.sizeOf_spec] at hsz ⊢; omega)
                aprop .other bprop .other rfl hga.2 hgb.2
            have hf1' := compareNodesRec_mono_le
              (by omega : f1 ≤ max f1 (max f2 f3)) _ _ _ _ _ hf1
            have hf2' := compareNodesRec_mono_le
              (by omega : f2 ≤ max f1 (max f2 f3)) _ _ _ _ _ hf2
            have hf3' := compareNodesRec_mono_le
              (by omega : f3 ≤ max f1 (max f2 f3)) _ _ _ _ _ hf3
            refine ⟨max f1 (max f2 f3) + 1, r3, ?_, fun _ => ?_, fun _ => ?_⟩
            · rw [compareNodesRec_succ_same hkk]
              simp only [compareNodesSameKind, if_neg hpriv, hf1', hf2',
                if_neg (by simp : ¬acomp ≠ acomp)]
              exact hf3'
            · have h' := hdE2 rfl
              simp only [chainDepth] at h' ⊢
              omega
            · have h' := hdE2 rfl
              simp only [chainDepth] at h' ⊢
              omega
          | Subset =>
            have hf1' := compareNodesRec_mono_le
              (by omega : f1 ≤ max f1 f2) _ _ _ _ _ hf1
            have hf2' := compareNodesRec_mono_le
              (by omega : f2 ≤ max f1 f2) _ _ _ _ _ hf2
            refine ⟨max f1 f2 + 1, .Invalid, ?_, fun h => absurd h (by decide),
              fun h => absurd h (by decide)⟩
            rw [compareNodesRec_succ_same hkk]
            simp only [compareNodesSameKind, if_neg hpriv, hf1', hf2',
              if_neg (by simp : ¬acomp ≠ acomp)]
          | Invalid =>
            have hf1' := compareNodesRec_mono_le
              (by omega : f1 ≤ max f1 f2) _ _ _ _ _ hf1
            have hf2' := compareNodesRec_mono_le
              (by omega : f2 ≤ max f1 f2) _ _ _ _ _ hf2
            refine ⟨max f1 f2 + 1, .Invalid, ?_, fun h => absurd h (by decide),
              fun h => absurd h (by decide)⟩
            rw [compareNodesRec_succ_same hkk]
            simp only [compareNodesSameKind, if_neg hpriv, hf1', hf2',
              if_neg (by simp : ¬acomp ≠ acomp)]
        · refine ⟨f1 + 1, .Invalid, ?_, fun h => absurd h (by decide),
            fun h => absurd h (by decide)⟩
          rw [compareNodesRec_succ_same hkk]
          simp only [compareNodesSameKind, if_neg hpriv, hf1]
          rw [if_pos hcomp]
    · -- call / call
      rename_i acallee aargs atargs aopt bcallee bargs btargs bopt
      have hga := hGa
      have hgb := hGb
      simp only [GoodNode, Bool.and_eq_true] at hga hgb
      have hkk : kindOf (Node.call acallee aargs atargs aopt) =
          kindOf (Node.call bcallee bargs btargs bopt) := by simp [kindOf]
      obtain ⟨f1, r1, hf1, hdE1, hdS1⟩ :=
        ih (sizeOf (Node.call acallee aargs atargs aopt) + sizeOf bcallee)
          (by simp [Node.call.sizeOf_spec] at hsz ⊢; omega)
          (Node.call acallee aargs atargs aopt) ca bcallee .callCallee rfl hGa hgb.1.1.2
      cases r1 with
      | Equal =>
        refine ⟨f1 + 1, .Subset, ?_, fun h => absurd h (by decide), fun _ => ?_⟩
        · rw [compareNodesRec_succ_same hkk]
          simp only [compareNodesSameKind, hf1]
        · have h' := hdE1 rfl
          simp only [chainDepth] at h' ⊢
          omega
      | Subset =>
        refine ⟨f1 + 1, .Subset, ?_, fun h => absurd h (by decide), fun _ => ?_⟩
        · rw [compareNodesRec_succ_same hkk]
          simp only [compareNodesSameKind, hf1]
        · have h' := hdS1 rfl
          simp only [chainDepth] at h' ⊢
          omega
      | Invalid =>
        obtain ⟨f2, r2, hf2, hdE2, _⟩ :=
          ih (sizeOf acallee + sizeOf bcallee)
            (by simp [Node.call.sizeOf_spec] at hsz ⊢; omega)
            acallee .callCallee bcallee .callCallee rfl hga.1.1.2 hgb.1.1.2
        cases r2 with
        | Subset =>
          have hf1' := compareNodesRec_mono_le
            (by omega : f1 ≤ max f1 f2) _ _ _ _ _ hf1
          have hf2' := compareNodesRec_mono_le
            (by omega : f2 ≤ max f1 f2) _ _ _ _ _ hf2
          refine ⟨max f1 f2 + 1, .Invalid, ?_, fun h => absurd h (by decide),
            fun h => absurd h (by decide)⟩
          rw [compareNodesRec_succ_same hkk]
          simp only [compareNodesSameKind, hf1', hf2']
        | Invalid =>
          have hf1' := compareNodesRec_mono_le
            (by omega : f1 ≤ max f1 f2) _ _ _ _ _ hf1
          have hf2' := compareNodesRec_mono_le
            (by omega : f2 ≤ max f1 f2) _ _ _ _ _ hf2
          refine ⟨max f1 f2 + 1, .Invalid, ?_, fun h => absurd h (by decide),
            fun h => absurd h (by decide)⟩
          rw [compareNodesRec_succ_same hkk]
          simp only [compareNodesSameKind, hf1', hf2']
        | Equal =>
          by_cases hlen : NodeList.length aargs = NodeList.length bargs
          · have H : ∀ x y, NodeList.Mem x aargs → NodeList.Mem y bargs →
                ∃ f r, compareNodesRec f x .other y .other = some r := by
              intro x y hx hy
              obtain ⟨f', r', hf', _, _⟩ :=
                ih (sizeOf x + sizeOf y)
                  (by
                    have hx' := NodeList.sizeOf_lt_of_mem hx
                    have hy' := NodeList.sizeOf_lt_of_mem hy
                    simp [Node.call.sizeOf_spec] at hsz
                    omega)
                  x .other y .other rfl (GoodList_mem hga.1.2 hx) (GoodList_mem hgb.1.2 hy)
              exact ⟨f', r', hf'⟩
            obtain ⟨f3, v3, hv3⟩ := allEqualWith_total aargs bargs H
            cases atargs with
            | none =>
              cases btargs with
              | none =>
                have hf1' := compareNodesRec_mono_le
                  (by omega : f1 ≤ max f1 (max f2 f3)) _ _ _ _ _ hf1
                have hf2' := compareNodesRec_mono_le
                  (by omega : f2 ≤ max f1 (max f2 f3)) _ _ _ _ _ hf2
                have hv3' : allEqualWith
                    (fun x y => compareNodesRec (max f1 (max f2 f3)) x .other y .other)
                    aargs bargs = some v3 :=
                  allEqualWith_mono
                    (fun x y v hv => compareNodesRec_mono_le (by omega) _ _ _ _ _ hv)
                    aargs bargs v3 hv3
                cases v3 with
                | true =>
                  refine ⟨max f1 (max f2 f3) + 1, .Equal, ?_, fun _ => ?_,
                    fun h => absurd h (by decide)⟩
                  · rw [compareNodesRec_succ_same hkk]
                    simp only [compareNodesSameKind, hf1', hf2', compareArraysWith,
                      if_pos hlen, hv3', compareMaybeNodes]
                  · have h' := hdE2 rfl
                    simp only [chainDepth] at h' ⊢
                    omega
                | false =>
                  refine ⟨max f1 (max f2 f3) + 1, .Invalid, ?_,
                    fun h => absurd h (by decide), fun h => absurd h (by decide)⟩
                  rw [compareNodesRec_succ_same hkk]
                  simp only [compareNodesSameKind, hf1', hf2', compareArraysWith,
                    if_pos hlen, hv3']
              | some ty =>
                have hf1' := compareNodesRec_mono_le
                  (by omega : f1 ≤ max f1 (max f2 f3)) _ _ _ _ _ hf1
                have hf2' := compareNodesRec_mono_le
                  (by omega : f2 ≤ max f1 (max f2 f3)) _ _ _ _ _ hf2
                have hv3' : allEqualWith
                    (fun x y => compareNodesRec (max f1 (max f2 f3)) x .other y .other)
                    aargs bargs = some v3 :=
                  allEqualWith_mono
                    (fun x y v hv => compareNodesRec_mono_le (by omega) _ _ _ _ _ hv)
                    aargs bargs v3 hv3
                cases v3 with
                | true =>
                  refine ⟨max f1 (max f2 f3) + 1, .Invalid, ?_,
                    fun h => absurd h (by decide), fun h => absurd h (by decide)⟩
                  rw [compareNodesRec_succ_same hkk]
                  simp only [compareNodesSameKind, hf1', hf2', compareArraysWith,
                    if_pos hlen, hv3', compareMaybeNodes]
                | false =>
                  refine ⟨max f1 (max f2 f3) + 1, .Invalid, ?_,
                    fun h => absurd h (by decide), fun h => absurd h (by decide)⟩
                  rw [compareNodesRec_succ_same hkk]
                  simp only [compareNodesSameKind, hf1', hf2', compareArraysWith,
                    if_pos hlen, hv3']
            | some tx =>
              cases btargs with
              | none =>
                have hf1' := compareNodesRec_mono_le
                  (by omega : f1 ≤ max f1 (max f2 f3)) _ _ _ _ _ hf1
                have hf2' := compareNodesRec_mono_le
                  (by omega : f2 ≤ max f1 (max f2 f3)) _ _ _ _ _ hf2
                have hv3' : allEqualWith
                    (fun x y => compareNodesRec (max f1 (max f2 f3)) x .other y .other)
                    aargs bargs = some v3 :=
                  allEqualWith_mono
                    (fun x y v hv => compareNodesRec_mono_le (by omega) _ _ _ _ _ hv)
                    aargs bargs v3 hv3
                cases v3 with
                | true =>
                  refine ⟨max f1 (max f2 f3) + 1, .Invalid, ?_,
                    fun h => absurd h (by decide), fun h => absurd h (by decide)⟩
                  rw [compareNodesRec_succ_same hkk]
                  simp only [compareNodesSameKind, hf1', hf2', compareArraysWith,
                    if_pos hlen, hv3', compareMaybeNodes]
                | false =>
                  refine ⟨max f1 (max f2 f3) + 1, .Invalid, ?_,
                    fun h => absurd h (by decide), fun h => absurd h (by decide)⟩
                  rw [compareNodesRec_succ_same hkk]
                  simp only [compareNodesSameKind, hf1', hf2', compareArraysWith,
                    if_pos hlen, hv3']
              | some ty =>
                have hgta : GoodNode tx = true := by simpa [GoodOpt] using hga.2
                have hgtb : GoodNode ty = true := by simpa [GoodOpt] using hgb.2
                obtain ⟨f4, r4, hf4, _, _⟩ :=
                  ih (sizeOf tx + sizeOf ty)
                    (by
                      simp [Node.call.sizeOf_spec, OptNode.some.sizeOf_spec] at hsz
                      omega)
                    tx .other ty .other rfl hgta hgtb
                have hf1' := compareNodesRec_mono_le
                  (by omega : f1 ≤ max f1 (max f2 (max f3 f4))) _ _ _ _ _ hf1
                have hf2' := compareNodesRec_mono_le
                  (by omega : f2 ≤ max f1 (max f2 (max f3 f4))) _ _ _ _ _ hf2
                have hf4' := compareNodesRec_mono_le
                  (by omega : f4 ≤ max f1 (max f2 (max f3 f4))) _ _ _ _ _ hf4
                have hv3' : allEqualWith
                    (fun x y => compareNodesRec (max f1 (max f2 (max f3 f4))) x .other y .other)
                    aargs bargs = some v3 :=
                  allEqualWith_mono
                    (fun x y v hv => compareNodesRec_mono_le (by omega) _ _ _ _ _ hv)
                    aargs bargs v3 hv3
                cases v3 with
                | true =>
                  cases r4 with
                  | Equal =>
                    refine ⟨max f1 (max f2 (max f3 f4)) + 1, .Equal, ?_, fun _ => ?_,
                      fun h => absurd h (by decide)⟩
                    · rw [compareNodesRec_succ_same hkk]
                      simp only [compareNodesSameKind, hf1', hf2', compareArraysWith,
                        if_pos hlen, hv3', compareMaybeNodes, hf4']
                    · have h' := hdE2 rfl
                      simp only [chainDepth] at h' ⊢
                      omega
                  | Subset =>
                    refine ⟨max f1 (max f2 (max f3 f4)) + 1, .Invalid, ?_,
                      fun h => absurd h (by decide), fun h => absurd h (by decide)⟩
                    rw [compareNodesRec_succ_same hkk]
                    simp only [compareNodesSameKind, hf1', hf2', compareArraysWith,
                      if_pos hlen, hv3', compareMaybeNodes, hf4']
                  | Invalid =>
                    refine ⟨max f1 (max f2 (max f3 f4)) + 1, .Invalid, ?_,
                      fun h => absurd h (by decide), fun h => absurd h (by decide)⟩
                    rw [compareNodesRec_succ_same hkk]
                    simp only [compareNodesSameKind, hf1', hf2', compareArraysWith,
                      if_pos hlen, hv3', compareMaybeNodes, hf4']
                | false =>
                  refine ⟨max f1 (max f2 (max f3 f4)) + 1, .Invalid, ?_,
                    fun h => absurd h (by decide), fun h => absurd h (by decide)⟩
                  rw [compareNodesRec_succ_same hkk]
                  simp only [compareNodesSameKind, hf1', hf2', compareArraysWith,
                    if_pos hlen, hv3']
          · have hf1' := compareNodesRec_mono_le
              (by omega : f1 ≤ max f1 f2) _ _ _ _ _ hf1
            have hf2' := compareNodesRec_mono_le
              (by omega : f2 ≤ max f1 f2) _ _ _ _ _ hf2
            refine ⟨max f1 f2 + 1, .Invalid, ?_, fun h => absurd h (by decide),
              fun h => absurd h (by decide)⟩
            rw [compareNodesRec_succ_same hkk]
            simp only [compareNodesSameKind, hf1', hf2', compareArraysWith, if_neg hlen]
    · -- chainExpr / chainExpr
      rename_i e1 e2
      have hgb := hGb
      simp only [GoodNode, Bool.and_eq_true] at hgb
      obtain ⟨f, r, hf, hdE, hdS⟩ :=
        ih (sizeOf (Node.chainExpr e1) + sizeOf e2)
          (by simp [Node.chainExpr.sizeOf_spec] at hsz ⊢; omega)
          (Node.chainExpr e1) ca e2 .other rfl hGa hgb.2
      exact ⟨f + 1, r, by
          rw [compareNodesRec_succ_same (by simp [kindOf])]
          simpa only [compareNodesSameKind] using hf,
        fun h => by have h' := hdE h; simpa [chainDepth] using h',
        fun h => by have h' := hdS h; simpa [chainDepth] using h'⟩
    · -- nonNullExpr / nonNullExpr
      rename_i e1 e2
      have hga := hGa
      have hgb := hGb
      simp only [GoodNode] at hga hgb
      obtain ⟨f, r1, hf, hdE, hdS⟩ :=
        ih (sizeOf e1 + sizeOf e2)
          (by simp [Node.nonNullExpr.sizeOf_spec] at hsz ⊢; omega)
          e1 .other e2 .other rfl hga hgb
      cases r1 with
      | Equal =>
        refine ⟨f + 1, .Equal, ?_, fun _ => ?_, fun h => absurd h (by decide)⟩
        · rw [compareNodesRec_succ_same (by simp [kindOf])]
          simp only [compareNodesSameKind, visitSeq, hf]
        · have h' := hdE rfl
          simp only [chainDepth] at h' ⊢
          omega
      | Subset =>
        refine ⟨f + 1, .Invalid, ?_, fun h => absurd h (by decide),
          fun h => absurd h (by decide)⟩
        rw [compareNodesRec_succ_same (by simp [kindOf])]
        simp only [compareNodesSameKind, visitSeq, hf]
      | Invalid =>
        refine ⟨f + 1, .Invalid, ?_, fun h => absurd h (by decide),
          fun h => absurd h (by decide)⟩
        rw [compareNodesRec_succ_same (by simp [kindOf])]
        simp only [compareNodesSameKind, visitSeq, hf]
    · -- metaProperty / metaProperty
      rename_i am ap bm bp
      have hga := hGa
      have hgb := hGb
      simp only [GoodNode, Bool.and_eq_true] at hga hgb
      have H : ∀ p ∈ [(am, bm), (ap, bp)], ∃ f r,
          compareNodesRec f p.1 .other p.2 .other = some r := by
        intro p hp
        simp only [List.mem_cons, List.mem_singleton] at hp
        rcases hp with h | h | h
        · subst h
          obtain ⟨f', r', hf', _, _⟩ :=
            ih (sizeOf am + sizeOf bm)
              (by simp [Node.metaProperty.sizeOf_spec] at hsz; omega)
              am .other bm .other rfl hga.1 hgb.1
          exact ⟨f', r', hf'⟩
        · subst h
          obtain ⟨f', r', hf', _, _⟩ :=
            ih (sizeOf ap + sizeOf bp)
              (by simp [Node.metaProperty.sizeOf_spec] at hsz; omega)
              ap .other bp .other rfl hga.2 hgb.2
          exact ⟨f', r', hf'⟩
        · exact absurd h (by simp)
      obtain ⟨f, r, hf⟩ := visitSeq_total _ H
      exact ⟨f + 1, r, by
          rw [compareNodesRec_succ_same (by simp [kindOf])]
          simpa only [compareNodesSameKind] using hf,
        fun _ => rfl, fun _ => Nat.le_refl _⟩
    · -- binary / binary
      rename_i op1 l1 r1' op2 l2 r2'
      have hga := hGa
      have hgb := hGb
      simp only [GoodNode, Bool.and_eq_true] at hga hgb
      have H : ∀ p ∈ [(l1, l2), (r1', r2')], ∃ f r,
          compareNodesRec f p.1 .other p.2 .other = some r := by
        intro p hp
        simp only [List.mem_cons, List.mem_singleton] at hp
        rcases hp with h | h | h
        · subst h
          obtain ⟨f', r', hf', _, _⟩ :=
            ih (sizeOf l1 + sizeOf l2)
              (by simp [Node.binary.sizeOf_spec] at hsz; omega)
              l1 .other l2 .other rfl hga.1 hgb.1
          exact ⟨f', r', hf'⟩
        · subst h
          obtain ⟨f', r', hf', _, _⟩ :=
            ih (sizeOf r1' + sizeOf r2')
              (by simp [Node.binary.sizeOf_spec] at hsz; omega)
              r1' .other r2' .other rfl hga.2 hgb.2
          exact ⟨f', r', hf'⟩
        · exact absurd h (by simp)
      obtain ⟨f, r, hf⟩ := visitSeq_total _ H
      exact ⟨f + 1, r, by
          rw [compareNodesRec_succ_same (by simp [kindOf])]
          simpa only [compareNodesSameKind] using hf,
        fun _ => rfl, fun _ => Nat.le_refl _⟩
    · -- logical / logical
      rename_i op1 l1 r1' op2 l2 r2'
      have hga := hGa
      have hgb := hGb
      simp only [GoodNode, Bool.and_eq_true] at hga hgb
      have H : ∀ p ∈ [(l1, l2), (r1', r2')], ∃ f r,
          compareNodesRec f p.1 .other p.2 .other = some r := by
        intro p hp
        simp only [List.mem_cons, List.mem_singleton] at hp
        rcases hp with h | h | h
        · subst h
          obtain ⟨f', r', hf', _, _⟩ :=
            ih (sizeOf l1 + sizeOf l2)
              (by simp [Node.logical.sizeOf_spec] at hsz; omega)
              l1 .other l2 .other rfl hga.1 hgb.1
          exact ⟨f', r', hf'⟩
        · subst h
          obtain ⟨f', r', hf', _, _⟩ :=
            ih (sizeOf r1' + sizeOf r2')
              (by simp [Node.logical.sizeOf_spec] at hsz; omega)
              r1' .other r2' .other rfl hga.2 hgb.2
          exact ⟨f', r', hf'⟩
        · exact absurd h (by simp)
      obtain ⟨f, r, hf⟩ := visitSeq_total _ H
      exact ⟨f + 1, r, by
          rw [compareNodesRec_succ_same (by simp [kindOf])]
          simpa only [compareNodesSameKind] using hf,
        fun _ => rfl, fun _ => Nat.le_refl _⟩
    · -- unary / unary
      rename_i op1 x1 op2 x2
      have hga := hGa
      have hgb := hGb
      simp only [GoodNode] at hga hgb
      have H : ∀ p ∈ [(x1, x2)], ∃ f r,
          compareNodesRec f p.1 .other p.2 .other = some r := by
        intro p hp
        simp only [List.mem_singleton] at hp
        subst hp
        obtain ⟨f', r', hf', _, _⟩ :=
          ih (sizeOf x1 + sizeOf x2)
            (by simp [Node.unary.sizeOf_spec] at hsz; omega)
            x1 .other x2 .other rfl hga hgb
        exact ⟨f', r', hf'⟩
      obtain ⟨f, r, hf⟩ := visitSeq_total _ H
      exact ⟨f + 1, r, by
          rw [compareNodesRec_succ_same (by simp [kindOf])]
          simpa only [compareNodesSameKind] using hf,
        fun _ => rfl, fun _ => Nat.le_refl _⟩
    · -- conditional / conditional
      rename_i t1 c1 a1 t2 c2 a2
      have hga := hGa
      have hgb := hGb
      simp only [GoodNode, Bool.and_eq_true] at hga hgb
      have H : ∀ p ∈ [(t1, t2), (c1, c2), (a1, a2)], ∃ f r,
          compareNodesRec f p.1 .other p.2 .other = some r := by
        intro p hp
        simp only [List.mem_cons, List.mem_singleton] at hp
        rcases hp with h | h | h | h
        · subst h
          obtain ⟨f', r', hf', _, _⟩ :=
            ih (sizeOf t1 + sizeOf t2)
              (by simp [Node.conditional.sizeOf_spec] at hsz; omega)
              t1 .other t2 .other rfl hga.1.1 hgb.1.1
          exact ⟨f', r', hf'⟩
        · subst h
          obtain ⟨f', r', hf', _, _⟩ :=
            ih (sizeOf c1 + sizeOf c2)
              (by simp [Node.conditional.sizeOf_spec] at hsz; omega)
              c1 .other c2 .other rfl hga.1.2 hgb.1.2
          exact ⟨f', r', hf'⟩
        · subst h
          obtain ⟨f', r', hf', _, _⟩ :=
            ih (sizeOf a1 + sizeOf a2)
              (by simp [Node.conditional.sizeOf_spec] at hsz; omega)
              a1 .other a2 .other rfl hga.2 hgb.2
          exact ⟨f', r', hf'⟩
        · exact absurd h (by simp)
      obtain ⟨f, r, hf⟩ := visitSeq_total _ H
      exact ⟨f + 1, r, by
          rw [compareNodesRec_succ_same (by simp [kindOf])]
          simpa only [compareNodesSameKind] using hf,
        fun _ => rfl, fun _ => Nat.le_refl _⟩
    · -- templateLit / templateLit : not chainable
      simp [GoodNode] at hGa
    · -- templateElem / templateElem
      rename_i v1 v2
      by_cases hc : v1.cooked = v2.cooked
      · exact ⟨1, .Equal, by
            rw [compareNodesRec_succ_same (by simp [kindOf])]
            simp only [compareNodesSameKind]
            rw [if_pos hc],
          fun _ => rfl, fun h => absurd h (by decide)⟩
      · exact ⟨1, .Invalid, by
            rw [compareNodesRec_succ_same (by simp [kindOf])]
            simp only [compareNodesSameKind]
            rw [if_neg hc],
          fun h => absurd h (by decide), fun h => absurd h (by decide)⟩
    · -- keyword / keyword
      rename_i t1 t2
      subst hk
      exact ⟨1, .Equal, by
          rw [compareNodesRec_succ_same (by simp [kindOf])]
          simp [compareNodesSameKind],
        fun _ => rfl, fun h => absurd h (by decide)⟩
    · -- assignmentExpr / assignmentExpr : not chainable
      simp [GoodNode] at hGa
    · -- updateExpr / updateExpr : not chainable
      simp [GoodNode] at hGa
    · -- yieldExpr / yieldExpr : not chainable
      simp [GoodNode] at hGa
    · -- allocExpr / allocExpr : not chainable
      simp [GoodNode] at hGa
    · -- objectExpr / objectExpr : not chainable
      simp [GoodNode] at hGa
    · -- unknownNode / unknownNode : not chainable
      simp [GoodNode] at hGa

/-- `visitSeq` yields `Equal` when every listed child pair does. -/
theorem visitSeq_allEqual (cmp : CmpFun) :
    ∀ (ps : List (Node × Node)),
      (∀ p ∈ ps, cmp p.1 .other p.2 .other = some .Equal) →
      visitSeq cmp ps = some .Equal
  | [], _ => rfl
  | (a, b) :: ps, H => by
    have h1 : cmp a .other b .other = some .Equal := H (a, b) (by simp)
    simp only [visitSeq, h1]
    exact visitSeq_allEqual cmp ps (fun p hp => H p (List.mem_cons_of_mem _ hp))

/-- `compareArrays` on a list against itself: all diagonal pairs `Equal`
gives `some true` at a single common fuel. -/
theorem allEqualWith_diag :
    ∀ (as : NodeList),
      (∀ x, NodeList.Mem x as →
        ∃ f, compareNodesRec f x .other x .other = some .Equal) →
      ∃ f, allEqualWith (fun x y => compareNodesRec f x .other y .other)
        as as = some true
  | .nil, _ => ⟨0, rfl⟩
  | .cons a as, H => by
    obtain ⟨f1, h1⟩ := H a (Or.inl rfl)
    obtain ⟨f2, h2⟩ := allEqualWith_diag as (fun x hx => H x (Or.inr hx))
    refine ⟨max f1 f2, ?_⟩
    have h1' := compareNodesRec_mono_le (Nat.le_max_left f1 f2) _ _ _ _ _ h1
    have h2' := allEqualWith_mono
      (fun x y v hv =>
        compareNodesRec_mono_le (Nat.le_max_right f1 f2) _ _ _ _ _ hv)
      as as true h2
    simp only [allEqualWith, h1', h2']

/-- Reflexivity of the comparator on chainable nodes: comparing a `GoodNode`
against itself (in any position other than member-object/callee for a bare
chain expression) terminates with `Equal`.  This is the repaired form of the
specification's reflexivity property: it fails without the `GoodNode`
restriction (see the `ObjectExpression` counterexample). -/
theorem goodCompareRefl :
    ∀ (n : Nat) (a : Node) (ctx : ParentCtx), sizeOf a = n →
      GoodNode a = true → (ctx = .other ∨ isChainExprNode a = false) →
      ∃ f, compareNodesRec f a ctx a ctx = some .Equal := by
  intro n
  induction n using Nat.strong_induction_on with
  | _ n ih =>
  intro a ctx hsz hGa hctx
  cases a
  · -- ident
    exact ⟨1, by
      rw [compareNodesRec_succ_same (by simp [kindOf])]
      simp [compareNodesSameKind]⟩
  · -- privateIdent
    exact ⟨1, by
      rw [compareNodesRec_succ_same (by simp [kindOf])]
      simp [compareNodesSameKind]⟩
  · -- lit
    exact ⟨1, by
      rw [compareNodesRec_succ_same (by simp [kindOf])]
      simp [compareNodesSameKind]⟩
  · -- member
    rename_i aobj aprop acomp aopt
    have hga := hGa
    simp only [GoodNode, Bool.and_eq_true] at hga
    have hpriv : ¬isPrivateIdentNode aprop = true := by
      simp only [Bool.not_eq_true]
      simpa using hga.1.1.1
    obtain ⟨f1, r1, hf1, hdE1, hdS1⟩ :=
      goodCompareTotal
        (sizeOf (Node.member aobj aprop acomp aopt) + sizeOf aobj)
        (Node.member aobj aprop acomp aopt) ctx aobj .memberObject rfl
        hGa hga.1.2
    have hr1 : r1 = .Invalid := by
      cases r1 with
      | Invalid => rfl
      | Equal =>
        have h' := hdE1 rfl
        simp only [chainDepth] at h'
        omega
      | Subset =>
        have h' := hdS1 rfl
        simp only [chainDepth] at h'
        omega
    subst hr1
    obtain ⟨f2, hf2⟩ :=
      ih (sizeOf aobj) (by simp [Node.member.sizeOf_spec] at hsz; omega)
        aobj .memberObject rfl hga.1.2 (Or.inr (by simpa using hga.1.1.2))
    obtain ⟨f3, hf3⟩ :=
      ih (sizeOf aprop) (by simp [Node.member.sizeOf_spec] at hsz; omega)
        aprop .other rfl hga.2 (Or.inl rfl)
    have hf1' := compareNodesRec_mono_le
      (by omega : f1 ≤ max f1 (max f2 f3)) _ _ _ _ _ hf1
    have hf2' := compareNodesRec_mono_le
      (by omega : f2 ≤ max f1 (max f2 f3)) _ _ _ _ _ hf2
    have hf3' := compareNodesRec_mono_le
      (by omega : f3 ≤ max f1 (max f2 f3)) _ _ _ _ _ hf3
    refine ⟨max f1 (max f2 f3) + 1, ?_⟩
    rw [compareNodesRec_succ_same (by simp [kindOf])]
    simp only [compareNodesSameKind, if_neg hpriv, hf1',
      if_neg (by simp : ¬acomp ≠ acomp), hf2']
    exact hf3'
  · -- call
    rename_i acallee aargs atargs aopt
    have hga := hGa
    simp only [GoodNode, Bool.and_eq_true] at hga
    obtain ⟨f1, r1, hf1, hdE1, hdS1⟩ :=
      goodCompareTotal
        (sizeOf (Node.call acallee aargs atargs aopt) + sizeOf acallee)
        (Node.call acallee aargs atargs aopt) ctx acallee .callCallee rfl
        hGa hga.1.1.2
    have hr1 : r1 = .Invalid := by
      cases r1 with
      | Invalid => rfl
      | Equal =>
        have h' := hdE1 rfl
        simp only [chainDepth] at h'
        omega
      | Subset =>
        have h' := hdS1 rfl
        simp only [chainDepth] at h'
        omega
    subst hr1
    obtain ⟨f2, hf2⟩ :=
      ih (sizeOf acallee) (by simp [Node.call.sizeOf_spec] at hsz; omega)
        acallee .callCallee rfl hga.1.1.2 (Or.inr (by simpa using hga.1.1.1))
    obtain ⟨f3, h3⟩ := allEqualWith_diag aargs (fun x hx =>
      ih (sizeOf x)
        (by
          have hx' := NodeList.sizeOf_lt_of_mem hx
          simp [Node.call.sizeOf_spec] at hsz
          omega)
        x .other rfl (GoodList_mem hga.1.2 hx) (Or.inl rfl))
    cases atargs with
    | none =>
      have hf1' := compareNodesRec_mono_le
        (by omega : f1 ≤ max f1 (max f2 f3)) _ _ _ _ _ hf1
      have hf2' := compareNodesRec_mono_le
        (by omega : f2 ≤ max f1 (max f2 f3)) _ _ _ _ _ hf2
      have h3' := allEqualWith_mono
        (fun x y v hv => compareNodesRec_mono_le
          (by omega : f3 ≤ max f1 (max f2 f3)) _ _ _ _ _ hv)
        aargs aargs true h3
      refine ⟨max f1 (max f2 f3) + 1, ?_⟩
      rw [compareNodesRec_succ_same (by simp [kindOf])]
      simp [compareNodesSameKind, compareArraysWith, compareMaybeNodes,
        hf1', hf2', h3']
    | some tx =>
      have hgtx : GoodNode tx = true := by simpa [GoodOpt] using hga.2
      obtain ⟨f4, hf4⟩ :=
        ih (sizeOf tx)
          (by simp [Node.call.sizeOf_spec, OptNode.some.sizeOf_spec] at hsz
              omega)
          tx .other rfl hgtx (Or.inl rfl)
      have hf1' := compareNodesRec_mono_le
        (by omega : f1 ≤ max f1 (max f2 (max f3 f4))) _ _ _ _ _ hf1
      have hf2' := compareNodesRec_mono_le
        (by omega : f2 ≤ max f1 (max f2 (max f3 f4))) _ _ _ _ _ hf2
      have h3' := allEqualWith_mono
        (fun x y v hv => compareNodesRec_mono_le
          (by omega : f3 ≤ max f1 (max f2 (max f3 f4))) _ _ _ _ _ hv)
        aargs aargs true h3
      have hf4' := compareNodesRec_mono_le
        (by omega : f4 ≤ max f1 (max f2 (max f3 f4))) _ _ _ _ _ hf4
      refine ⟨max f1 (max f2 (max f3 f4)) + 1, ?_⟩
      rw [compareNodesRec_succ_same (by simp [kindOf])]
      simp [compareNodesSameKind, compareArraysWith, compareMaybeNodes,
        hf1', hf2', h3', hf4']
  · -- chainExpr
    rename_i e
    have hctx' : ctx = .other := by
      cases hctx with
      | inl h => exact h
      | inr h => simp [isChainExprNode] at h
    subst hctx'
    have hga := hGa
    simp only [GoodNode, Bool.and_eq_true] at hga
    obtain ⟨f, hf⟩ :=
      ih (sizeOf e) (by simp [Node.chainExpr.sizeOf_spec] at hsz; omega)
        e .other rfl hga.2 (Or.inr (by simpa using hga.1))
    have hk : ¬kindOf (Node.chainExpr e) = kindOf e := by
      have h1 := hga.1
      cases e <;> simp [kindOf, isChainExprNode] at h1 ⊢
    have hstep2 : compareNodesRec (f + 1) (Node.chainExpr e) .other
        e .other = some .Equal := by
      rw [compareNodesRec_succ_diff hk]
      simp only [compareNodesDiffKind, chainLookThrough]
      exact hf
    refine ⟨f + 1 + 1, ?_⟩
    rw [compareNodesRec_succ_same (by simp [kindOf])]
    simp only [compareNodesSameKind]
    exact hstep2
  · -- nonNullExpr
    rename_i e
    have hga := hGa
    simp only [GoodNode] at hga
    obtain ⟨f, hf⟩ :=
      ih (sizeOf e) (by simp [Node.nonNullExpr.sizeOf_spec] at hsz; omega)
        e .other rfl hga (Or.inl rfl)
    refine ⟨f + 1, ?_⟩
    rw [compareNodesRec_succ_same (by simp [kindOf])]
    simp only [compareNodesSameKind, visitSeq, hf]
  · -- metaProperty
    rename_i m p
    have hga := hGa
    simp only [GoodNode, Bool.and_eq_true] at hga
    obtain ⟨f1, h1⟩ :=
      ih (sizeOf m) (by simp [Node.metaProperty.sizeOf_spec] at hsz; omega)
        m .other rfl hga.1 (Or.inl rfl)
    obtain ⟨f2, h2⟩ :=
      ih (sizeOf p) (by simp [Node.metaProperty.sizeOf_spec] at hsz; omega)
        p .other rfl hga.2 (Or.inl rfl)
    have h1' := compareNodesRec_mono_le
      (by omega : f1 ≤ max f1 f2) _ _ _ _ _ h1
    have h2' := compareNodesRec_mono_le
      (by omega : f2 ≤ max f1 f2) _ _ _ _ _ h2
    refine ⟨max f1 f2 + 1, ?_⟩
    rw [compareNodesRec_succ_same (by simp [kindOf])]
    simp only [compareNodesSameKind]
    refine visitSeq_allEqual _ _ ?_
    intro q hq
    simp only [List.mem_cons, List.mem_singleton] at hq
    rcases hq with h | h | h
    · subst h; exact h1'
    · subst h; exact h2'
    · exact absurd h (by simp)
  · -- binary
    rename_i op l r
    have hga := hGa
    simp only [GoodNode, Bool.and_eq_true] at hga
    obtain ⟨f1, h1⟩ :=
      ih (sizeOf l) (by simp [Node.binary.sizeOf_spec] at hsz; omega)
        l .other rfl hga.1 (Or.inl rfl)
    obtain ⟨f2, h2⟩ :=
      ih (sizeOf r) (by simp [Node.binary.sizeOf_spec] at hsz; omega)
        r .other rfl hga.2 (Or.inl rfl)
    have h1' := compareNodesRec_mono_le
      (by omega : f1 ≤ max f1 f2) _ _ _ _ _ h1
    have h2' := compareNodesRec_mono_le
      (by omega : f2 ≤ max f1 f2) _ _ _ _ _ h2
    refine ⟨max f1 f2 + 1, ?_⟩
    rw [compareNodesRec_succ_same (by simp [kindOf])]
    simp only [compareNodesSameKind]
    refine visitSeq_allEqual _ _ ?_
    intro q hq
    simp only [List.mem_cons, List.mem_singleton] at hq
    rcases hq with h | h | h
    · subst h; exact h1'
    · subst h; exact h2'
    · exact absurd h (by simp)
  · -- logical
    rename_i op l r
    have hga := hGa
    simp only [GoodNode, Bool.and_eq_true] at hga
    obtain ⟨f1, h1⟩ :=
      ih (sizeOf l) (by simp [Node.logical.sizeOf_spec] at hsz; omega)
        l .other rfl hga.1 (Or.inl rfl)
    obtain ⟨f2, h2⟩ :=
      ih (sizeOf r) (by simp [Node.logical.sizeOf_spec] at hsz; omega)
        r .other rfl hga.2 (Or.inl rfl)
    have h1' := compareNodesRec_mono_le
      (by omega : f1 ≤ max f1 f2) _ _ _ _ _ h1
    have h2' := compareNodesRec_mono_le
      (by omega : f2 ≤ max f1 f2) _ _ _ _ _ h2
    refine ⟨max f1 f2 + 1, ?_⟩
    rw [compareNodesRec_succ_same (by simp [kindOf])]
    simp only [compareNodesSameKind]
    refine visitSeq_allEqual _ _ ?_
    intro q hq
    simp only [List.mem_cons, List.mem_singleton] at hq
    rcases hq with h | h | h
    · subst h; exact h1'
    · subst h; exact h2'
    · exact absurd h (by simp)
  · -- unary
    rename_i op x
    have hga := hGa
    simp only [GoodNode] at hga
    obtain ⟨f1, h1⟩ :=
      ih (sizeOf x) (by simp [Node.unary.sizeOf_spec] at hsz; omega)
        x .other rfl hga (Or.inl rfl)
    refine ⟨f1 + 1, ?_⟩
    rw [compareNodesRec_succ_same (by simp [kindOf])]
    simp only [compareNodesSameKind]
    refine visitSeq_allEqual _ _ ?_
    intro q hq
    simp only [List.mem_singleton] at hq
    subst hq
    exact h1
  · -- conditional
    rename_i t c aalt
    have hga := hGa
    simp only [GoodNode, Bool.and_eq_true] at hga
    obtain ⟨f1, h1⟩ :=
      ih (sizeOf t) (by simp [Node.conditional.sizeOf_spec] at hsz; omega)
        t .other rfl hga.1.1 (Or.inl rfl)
    obtain ⟨f2, h2⟩ :=
      ih (sizeOf c) (by simp [Node.conditional.sizeOf_spec] at hsz; omega)
        c .other rfl hga.1.2 (Or.inl rfl)
    obtain ⟨f3, h3⟩ :=
      ih (sizeOf aalt) (by simp [Node.conditional.sizeOf_spec] at hsz; omega)
        aalt .other rfl hga.2 (Or.inl rfl)
    have h1' := compareNodesRec_mono_le
      (by omega : f1 ≤ max f1 (max f2 f3)) _ _ _ _ _ h1
    have h2' := compareNodesRec_mono_le
      (by omega : f2 ≤ max f1 (max f2 f3)) _ _ _ _ _ h2
    have h3' := compareNodesRec_mono_le
      (by omega : f3 ≤ max f1 (max f2 f3)) _ _ _ _ _ h3
    refine ⟨max f1 (max f2 f3) + 1, ?_⟩
    rw [compareNodesRec_succ_same (by simp [kindOf])]
    simp only [compareNodesSameKind]
    refine visitSeq_allEqual _ _ ?_
    intro q hq
    simp only [List.mem_cons, List.mem_singleton] at hq
    rcases hq with h | h | h | h
    · subst h; exact h1'
    · subst h; exact h2'
    · subst h; exact h3'
    · exact absurd h (by simp)
  · -- templateLit : not chainable
    simp [GoodNode] at hGa
  · -- templateElem
    exact ⟨1, by
      rw [compareNodesRec_succ_same (by simp [kindOf])]
      simp [compareNodesSameKind]⟩
  · -- keyword
    exact ⟨1, by
      rw [compareNodesRec_succ_same (by simp [kindOf])]
      simp [compareNodesSameKind]⟩
  · -- assignmentExpr : not chainable
    simp [GoodNode] at hGa
  · -- updateExpr : not chainable
    simp [GoodNode] at hGa
  · -- yieldExpr : not chainable
    simp [GoodNode] at hGa
  · -- allocExpr : not chainable
    simp [GoodNode] at hGa
  · -- objectExpr : not chainable
    simp [GoodNode] at hGa
  · -- unknownNode : not chainable
    simp [GoodNode] at hGa

/-- The child-visiting loop never answers `Subset`. -/
theorem visitSeq_no_subset (cmp : CmpFun) :
    ∀ (ps : List (Node × Node)), visitSeq cmp ps ≠ some .Subset
  | [], h => by simp [visitSeq] at h
  | (a, b) :: ps, h => by
    simp only [visitSeq] at h
    split at h
    · exact absurd h (by simp)
    · exact visitSeq_no_subset cmp ps h
    · exact absurd h (by simp)

/-- Determinism across fuels: two converged runs of the comparison recursion
on the same inputs agree, whatever their fuels. -/
theorem compareNodesRec_unique {f g : Nat} {a : Node} {ca : ParentCtx}
    {b : Node} {cb : ParentCtx} {r r' : NodeComparisonResult}
    (hf : compareNodesRec f a ca b cb = some r)
    (hg : compareNodesRec g a ca b cb = some r') : r = r' := by
  have hf' := compareNodesRec_mono_le (Nat.le_max_left f g) _ _ _ _ _ hf
  have hg' := compareNodesRec_mono_le (Nat.le_max_right f g) _ _ _ _ _ hg
  rw [hf'] at hg'
  exact Option.some.inj hg'

/-- `Subset` soundness in its repaired form: a `Subset` verdict exhibits a
peel of the right node (shedding trailing member/call/wrapper layers) to
which the left node relates by `SubsetEv` — comparing `Equal` at the
positions the recursion used, or, on the computed-member path, member
accesses with `Equal` objects and `Subset` properties, possibly under the
left node's own transparent wrappers. -/
theorem subsetSound :
    ∀ (f : Nat) (a : Node) (ca : ParentCtx) (b : Node) (cb : ParentCtx),
      compareNodesRec f a ca b cb = some .Subset →
      ∃ nn, Peeled b nn ∧ SubsetEv a nn := by
  intro f
  induction f with
  | zero =>
    intro a ca b cb h
    exact absurd h (by simp [compareNodesRec])
  | succ f ih =>
    intro a ca b cb h
    by_cases hk : kindOf a = kindOf b
    · rw [compareNodesRec_succ_same hk] at h
      cases a
      · -- ident
        exact absurd h (by
          cases b <;> simp [compareNodesSameKind] <;> split <;> simp)
      · -- privateIdent
        exact absurd h (by
          cases b <;> simp [compareNodesSameKind] <;> split <;> simp)
      · -- lit
        exact absurd h (by
          cases b <;> simp [compareNodesSameKind] <;> split <;> simp)
      · -- member
        rename_i aobj aprop acomputed aopt
        cases b <;> simp only [compareNodesSameKind] at h <;>
          try (injection h with h'; cases h')
        rename_i bobj bprop bcomputed bopt
        by_cases h6 : isPrivateIdentNode bprop = true
        · rw [if_pos h6] at h
          exact absurd h (by simp)
        · rw [if_neg h6] at h
          cases h1 : compareNodesRec f
              (Node.member aobj aprop acomputed aopt) ca bobj .memberObject with
          | none => rw [h1] at h; exact absurd h (by simp)
          | some r1 =>
            rw [h1] at h
            cases r1 with
            | Equal =>
              exact ⟨bobj, Peeled.member _ _ _ (Peeled.refl _),
                SubsetEv.eq f ca .memberObject h1⟩
            | Subset =>
              obtain ⟨nn, hP, hS⟩ := ih _ _ _ _ h1
              exact ⟨nn, Peeled.member _ _ _ hP, hS⟩
            | Invalid =>
              by_cases h7 : acomputed = bcomputed
              · rw [if_neg (by simp [h7])] at h
                cases h2 : compareNodesRec f aobj .memberObject
                    bobj .memberObject with
                | none => rw [h2] at h; exact absurd h (by simp)
                | some r2 =>
                  rw [h2] at h
                  cases r2 with
                  | Subset => exact absurd h (by simp)
                  | Invalid => exact absurd h (by simp)
                  | Equal =>
                    subst h7
                    exact ⟨Node.member bobj bprop acomputed bopt, Peeled.refl _,
                      SubsetEv.viaProp f f .memberObject .memberObject
                        .other .other h2 h⟩
              · rw [if_pos (by simp [h7])] at h
                exact absurd h (by simp)
      · -- call
        rename_i acallee aargs atargs aopt
        cases b <;> simp only [compareNodesSameKind] at h <;>
          try (injection h with h'; cases h')
        rename_i bcallee bargs btargs bopt
        cases h1 : compareNodesRec f
            (Node.call acallee aargs atargs aopt) ca bcallee .callCallee with
        | none => rw [h1] at h; exact absurd h (by simp)
        | some r1 =>
          rw [h1] at h
          cases r1 with
          | Equal =>
            exact ⟨bcallee, Peeled.call _ _ _ (Peeled.refl _),
              SubsetEv.eq f ca .callCallee h1⟩
          | Subset =>
            obtain ⟨nn, hP, hS⟩ := ih _ _ _ _ h1
            exact ⟨nn, Peeled.call _ _ _ hP, hS⟩
          | Invalid =>
            cases h2 : compareNodesRec f acallee .callCallee
                bcallee .callCallee with
            | none => rw [h2] at h; exact absurd h (by simp)
            | some r2 =>
              rw [h2] at h
              cases r2 with
              | Subset => exact absurd h (by simp)
              | Invalid => exact absurd h (by simp)
              | Equal =>
                cases h3 : compareArraysWith
                    (fun x y => compareNodesRec f x .other y .other)
                    aargs bargs with
                | none => rw [h3] at h; exact absurd h (by simp)
                | some r3 =>
                  rw [h3] at h
                  cases r3 with
                  | Subset => exact absurd h (by simp)
                  | Invalid => exact absurd h (by simp)
                  | Equal =>
                    cases h4 : compareMaybeNodes (compareNodesRec f)
                        atargs btargs with
                    | none => rw [h4] at h; exact absurd h (by simp)
                    | some r4 =>
                      rw [h4] at h
                      cases r4 <;> exact absurd h (by simp)
      · -- chainExpr
        rename_i ae
        cases b <;> simp only [compareNodesSameKind] at h <;>
          try (injection h with h'; cases h')
        obtain ⟨nn, hP, hS⟩ := ih _ _ _ _ h
        exact ⟨nn, Peeled.chain hP, hS⟩
      · -- nonNullExpr
        exact absurd h (by
          cases b <;> simp only [compareNodesSameKind] <;>
            first
            | simp
            | exact visitSeq_no_subset _ _)
      · -- metaProperty
        exact absurd h (by
          cases b <;> simp only [compareNodesSameKind] <;>
            first
            | simp
            | exact visitSeq_no_subset _ _)
      · -- binary
        exact absurd h (by
          cases b <;> simp only [compareNodesSameKind] <;>
            first
            | simp
            | exact visitSeq_no_subset _ _)
      · -- logical
        exact absurd h (by
          cases b <;> simp only [compareNodesSameKind] <;>
            first
            | simp
            | exact visitSeq_no_subset _ _)
      · -- unary
        exact absurd h (by
          cases b <;> simp only [compareNodesSameKind] <;>
            first
            | simp
            | exact visitSeq_no_subset _ _)
      · -- conditional
        exact absurd h (by
          cases b <;> simp only [compareNodesSameKind] <;>
            first
            | simp
            | exact visitSeq_no_subset _ _)
      · -- templateLit
        rename_i ty aq ae
        cases b <;> simp only [compareNodesSameKind] at h <;>
          try (injection h with h'; cases h')
        rename_i ty' bq be
        by_cases h6 : aq = bq
        · rw [if_pos h6] at h
          obtain ⟨nn, hP, hS⟩ := ih _ _ _ _ h
          exact ⟨nn, hP, hS⟩
        · rw [if_neg h6] at h
          exact absurd h (by simp)
      · -- templateElem
        exact absurd h (by
          cases b <;> simp [compareNodesSameKind] <;> split <;> simp)
      · -- keyword
        exact absurd h (by simp [compareNodesSameKind])
      · -- assignmentExpr
        exact absurd h (by simp [compareNodesSameKind])
      · -- updateExpr
        exact absurd h (by simp [compareNodesSameKind])
      · -- yieldExpr
        exact absurd h (by simp [compareNodesSameKind])
      · -- allocExpr
        exact absurd h (by simp [compareNodesSameKind])
      · -- objectExpr
        exact absurd h (by simp [compareNodesSameKind])
      · -- unknownNode
        exact absurd h (by simp [compareNodesSameKind])
    · rw [compareNodesRec_succ_diff hk] at h
      simp only [compareNodesDiffKind] at h
      cases hc1 : chainLookThrough a ca with
      | some e =>
        rw [hc1] at h
        obtain ⟨ha, -⟩ := chainLookThrough_some hc1
        subst ha
        obtain ⟨nn, hP, hS⟩ := ih _ _ _ _ h
        exact ⟨nn, hP, SubsetEv.chainLeft hS⟩
      | none =>
        rw [hc1] at h
        cases hc2 : chainLookThrough b cb with
        | some e =>
          rw [hc2] at h
          obtain ⟨hb, -⟩ := chainLookThrough_some hc2
          subst hb
          obtain ⟨nn, hP, hS⟩ := ih _ _ _ _ h
          exact ⟨nn, Peeled.chain hP, hS⟩
        | none =>
          rw [hc2] at h
          cases hn1 : nonNullInner a with
          | some e =>
            rw [hn1] at h
            have ha := nonNullInner_some hn1
            subst ha
            obtain ⟨nn, hP, hS⟩ := ih _ _ _ _ h
            exact ⟨nn, hP, SubsetEv.nonNullLeft hS⟩
          | none =>
            rw [hn1] at h
            cases hn2 : nonNullInner b with
            | some e =>
              rw [hn2] at h
              have hb := nonNullInner_some hn2
              subst hb
              obtain ⟨nn, hP, hS⟩ := ih _ _ _ _ h
              exact ⟨nn, Peeled.nonNull hP, hS⟩
            | none =>
              rw [hn2] at h
              by_cases h5 : isSubsetCompatibleKind (kindOf a) = true
              · rw [if_pos h5] at h
                cases b
                · exact absurd h (by simp [crossKindSubsetTest])
                · exact absurd h (by simp [crossKindSubsetTest])
                · exact absurd h (by simp [crossKindSubsetTest])
                · -- b is a member access
                  rename_i bobj bprop bcomp bopt
                  simp only [crossKindSubsetTest] at h
                  by_cases h6 : isPrivateIdentNode bprop = true
                  · rw [if_pos h6] at h
                    exact absurd h (by simp)
                  · rw [if_neg h6] at h
                    cases h1 : compareNodesRec f a ca bobj .memberObject with
                    | none => rw [h1] at h; exact absurd h (by simp)
                    | some r1 =>
                      rw [h1] at h
                      cases r1 with
                      | Equal =>
                        exact ⟨bobj, Peeled.member _ _ _ (Peeled.refl _),
                          SubsetEv.eq f ca .memberObject h1⟩
                      | Subset =>
                        obtain ⟨nn, hP, hS⟩ := ih _ _ _ _ h1
                        exact ⟨nn, Peeled.member _ _ _ hP, hS⟩
                      | Invalid => exact absurd h (by simp)
                · -- b is a call
                  rename_i bcallee bargs btargs bopt
                  simp only [crossKindSubsetTest] at h
                  cases h1 : compareNodesRec f a ca bcallee .callCallee with
                  | none => rw [h1] at h; exact absurd h (by simp)
                  | some r1 =>
                    rw [h1] at h
                    cases r1 with
                    | Equal =>
                      exact ⟨bcallee, Peeled.call _ _ _ (Peeled.refl _),
                        SubsetEv.eq f ca .callCallee h1⟩
                    | Subset =>
                      obtain ⟨nn, hP, hS⟩ := ih _ _ _ _ h1
                      exact ⟨nn, Peeled.call _ _ _ hP, hS⟩
                    | Invalid => exact absurd h (by simp)
                · exact absurd h (by simp [crossKindSubsetTest])
                · exact absurd h (by simp [crossKindSubsetTest])
                · exact absurd h (by simp [crossKindSubsetTest])
                · exact absurd h (by simp [crossKindSubsetTest])
                · exact absurd h (by simp [crossKindSubsetTest])
                · exact absurd h (by simp [crossKindSubsetTest])
                · exact absurd h (by simp [crossKindSubsetTest])
                · exact absurd h (by simp [crossKindSubsetTest])
                · exact absurd h (by simp [crossKindSubsetTest])
                · exact absurd h (by simp [crossKindSubsetTest])
                · exact absurd h (by simp [crossKindSubsetTest])
                · exact absurd h (by simp [crossKindSubsetTest])
                · exact absurd h (by simp [crossKindSubsetTest])
                · exact absurd h (by simp [crossKindSubsetTest])
                · exact absurd h (by simp [crossKindSubsetTest])
                · exact absurd h (by simp [crossKindSubsetTest])
              · rw [if_neg h5] at h
                exact absurd h (by simp)

/-- Soundness property of a cache-threading comparison callback: on a
consistent cache it answers what the cacheless recursion answers (at some
fuel), and keeps the cache consistent. -/
def CmpCSound (cmp : CmpCFun) : Prop :=
  ∀ x cx y cy σ r σ', CacheConsistent σ → cmp x cx y cy σ = some (r, σ') →
    CacheConsistent σ' ∧ ∃ g, compareNodesRec g x cx y cy = some r

/-- A cache hit names an entry of the cache. -/
theorem cacheLookup_mem {σ : CompareCache}
    {k : (Node × ParentCtx) × (Node × ParentCtx)} {r : NodeComparisonResult}
    (h : cacheLookup σ k = some r) : ∃ e ∈ σ, e.1 = k ∧ e.2 = r := by
  simp only [cacheLookup, Option.map_eq_some'] at h
  obtain ⟨e, he, hr⟩ := h
  have hmem := List.mem_of_find?_eq_some he
  have hpred := List.find?_some he
  exact ⟨e, hmem, by simpa using hpred, hr⟩

/-- Threaded element loop: sound w.r.t. `allEqualWith`. -/
theorem allEqualWithC_sound {cmp : CmpCFun} (hcmp : CmpCSound cmp) :
    ∀ (as bs : NodeList) (σ : CompareCache) (v : Bool) (σ' : CompareCache),
      CacheConsistent σ →
      allEqualWithC (fun x y σ0 => cmp x .other y .other σ0) as bs σ =
        some (v, σ') →
      CacheConsistent σ' ∧
        ∃ g, allEqualWith (fun x y => compareNodesRec g x .other y .other)
          as bs = some v
  | .nil, .nil, σ, v, σ', hσ, h => by
    simp only [allEqualWithC, Option.some.injEq, Prod.mk.injEq] at h
    obtain ⟨rfl, rfl⟩ := h
    exact ⟨hσ, 0, rfl⟩
  | .nil, .cons _ _, σ, v, σ', hσ, h => by
    simp only [allEqualWithC, Option.some.injEq, Prod.mk.injEq] at h
    obtain ⟨rfl, rfl⟩ := h
    exact ⟨hσ, 0, rfl⟩
  | .cons _ _, .nil, σ, v, σ', hσ, h => by
    simp only [allEqualWithC, Option.some.injEq, Prod.mk.injEq] at h
    obtain ⟨rfl, rfl⟩ := h
    exact ⟨hσ, 0, rfl⟩
  | .cons a as, .cons b bs, σ, v, σ', hσ, h => by
    simp only [allEqualWithC] at h
    cases h1 : cmp a .other b .other σ with
    | none => rw [h1] at h; exact absurd h (by simp)
    | some p1 =>
      obtain ⟨r1, σ1⟩ := p1
      rw [h1] at h
      obtain ⟨hσ1, g1, hg1⟩ := hcmp _ _ _ _ _ _ _ hσ h1
      cases r1 with
      | Equal =>
        obtain ⟨hσ', g2, hg2⟩ := allEqualWithC_sound hcmp as bs σ1 v σ' hσ1 h
        refine ⟨hσ', max g1 g2, ?_⟩
        have hg1' := compareNodesRec_mono_le
          (Nat.le_max_left g1 g2) _ _ _ _ _ hg1
        have hg2' := allEqualWith_mono
          (fun x y w hw => compareNodesRec_mono_le
            (Nat.le_max_right g1 g2) _ _ _ _ _ hw) as bs v hg2
        simp only [allEqualWith, hg1', hg2']
      | Subset =>
        injection h with h1'
        injection h1' with h2' h3'
        subst h2'; subst h3'
        exact ⟨hσ1, g1, by simp only [allEqualWith, hg1]⟩
      | Invalid =>
        injection h with h1'
        injection h1' with h2' h3'
        subst h2'; subst h3'
        exact ⟨hσ1, g1, by simp only [allEqualWith, hg1]⟩

/-- Threaded `compareArrays`: sound w.r.t. `compareArraysWith`. -/
theorem compareArraysWithC_sound {cmp : CmpCFun} (hcmp : CmpCSound cmp)
    (as bs : NodeList) (σ : CompareCache) (r : NodeComparisonResult)
    (σ' : CompareCache) (hσ : CacheConsistent σ)
    (h : compareArraysWithC (fun x y σ0 => cmp x .other y .other σ0)
      as bs σ = some (r, σ')) :
    CacheConsistent σ' ∧
      ∃ g, compareArraysWith
        (fun x y => compareNodesRec g x .other y .other) as bs = some r := by
  simp only [compareArraysWithC] at h
  by_cases hlen : NodeList.length as = NodeList.length bs
  · rw [if_pos hlen] at h
    cases h1 : allEqualWithC (fun x y σ0 => cmp x .other y .other σ0)
        as bs σ with
    | none => rw [h1] at h; exact absurd h (by simp)
    | some p1 =>
      obtain ⟨v1, σ1⟩ := p1
      rw [h1] at h
      obtain ⟨hσ1, g, hg⟩ := allEqualWithC_sound hcmp as bs σ v1 σ1 hσ h1
      cases v1 with
      | true =>
        injection h with h1'
        injection h1' with h2' h3'
        subst h2'; subst h3'
        exact ⟨hσ1, g, by simp only [compareArraysWith, if_pos hlen, hg]⟩
      | false =>
        injection h with h1'
        injection h1' with h2' h3'
        subst h2'; subst h3'
        exact ⟨hσ1, g, by simp only [compareArraysWith, if_pos hlen, hg]⟩
  · rw [if_neg hlen] at h
    injection h with h1'
    injection h1' with h2' h3'
    subst h2'; subst h3'
    exact ⟨hσ, 0, by simp only [compareArraysWith, if_neg hlen]⟩

/-- Threaded nullable-slot comparison: sound w.r.t. `compareMaybeNodes`. -/
theorem compareMaybeNodesC_sound {cmp : CmpCFun} (hcmp : CmpCSound cmp)
    (ta tb : OptNode) (σ : CompareCache) (r : NodeComparisonResult)
    (σ' : CompareCache) (hσ : CacheConsistent σ)
    (h : compareMaybeNodesC cmp ta tb σ = some (r, σ')) :
    CacheConsistent σ' ∧
      ∃ g, compareMaybeNodes (compareNodesRec g) ta tb = some r := by
  cases ta with
  | none =>
    cases tb with
    | none =>
      simp only [compareMaybeNodesC, Option.some.injEq, Prod.mk.injEq] at h
      obtain ⟨rfl, rfl⟩ := h
      exact ⟨hσ, 0, rfl⟩
    | some y =>
      simp only [compareMaybeNodesC, Option.some.injEq, Prod.mk.injEq] at h
      obtain ⟨rfl, rfl⟩ := h
      exact ⟨hσ, 0, rfl⟩
  | some x =>
    cases tb with
    | none =>
      simp only [compareMaybeNodesC, Option.some.injEq, Prod.mk.injEq] at h
      obtain ⟨rfl, rfl⟩ := h
      exact ⟨hσ, 0, rfl⟩
    | some y =>
      simp only [compareMaybeNodesC] at h
      obtain ⟨hσ', g, hg⟩ := hcmp _ _ _ _ _ _ _ hσ h
      exact ⟨hσ', g, by simp only [compareMaybeNodes]; exact hg⟩

/-- Threaded child-visiting loop: sound w.r.t. `visitSeq`. -/
theorem visitSeqC_sound {cmp : CmpCFun} (hcmp : CmpCSound cmp) :
    ∀ (ps : List (Node × Node)) (σ : CompareCache)
      (r : NodeComparisonResult) (σ' : CompareCache),
      CacheConsistent σ → visitSeqC cmp ps σ = some (r, σ') →
      CacheConsistent σ' ∧
        ∃ g, visitSeq (compareNodesRec g) ps = some r
  | [], σ, r, σ', hσ, h => by
    simp only [visitSeqC, Option.some.injEq, Prod.mk.injEq] at h
    obtain ⟨rfl, rfl⟩ := h
    exact ⟨hσ, 0, rfl⟩
  | (a, b) :: ps, σ, r, σ', hσ, h => by
    simp only [visitSeqC] at h
    cases h1 : cmp a .other b .other σ with
    | none => rw [h1] at h; exact absurd h (by simp)
    | some p1 =>
      obtain ⟨r1, σ1⟩ := p1
      rw [h1] at h
      obtain ⟨hσ1, g1, hg1⟩ := hcmp _ _ _ _ _ _ _ hσ h1
      cases r1 with
      | Equal =>
        obtain ⟨hσ', g2, hg2⟩ := visitSeqC_sound hcmp ps σ1 r σ' hσ1 h
        refine ⟨hσ', max g1 g2, ?_⟩
        have hg1' := compareNodesRec_mono_le
          (Nat.le_max_left g1 g2) _ _ _ _ _ hg1
        have hg2' := visitSeq_mono
          (fun x cx y cy w hw => compareNodesRec_mono_le
            (Nat.le_max_right g1 g2) _ _ _ _ _ hw) ps r hg2
        simp only [visitSeq, hg1', hg2']
      | Subset =>
        injection h with h1'
        injection h1' with h2' h3'
        subst h2'; subst h3'
        exact ⟨hσ1, g1, by simp only [visitSeq, hg1]⟩
      | Invalid =>
        injection h with h1'
        injection h1' with h2' h3'
        subst h2'; subst h3'
        exact ⟨hσ1, g1, by simp only [visitSeq, hg1]⟩

/-- Threaded cross-kind subset test: sound w.r.t. `crossKindSubsetTest`. -/
theorem crossKindSubsetTestC_sound {cmp : CmpCFun} (hcmp : CmpCSound cmp)
    (a : Node) (ca : ParentCtx) (b : Node) (σ : CompareCache)
    (r : NodeComparisonResult) (σ' : CompareCache) (hσ : CacheConsistent σ)
    (h : crossKindSubsetTestC cmp a ca b σ = some (r, σ')) :
    CacheConsistent σ' ∧
      ∃ g, crossKindSubsetTest (compareNodesRec g) a ca b = some r := by
  cases b
  case member bobj bprop bcomp bopt =>
    simp only [crossKindSubsetTestC] at h
    by_cases h6 : isPrivateIdentNode bprop = true
    · rw [if_pos h6] at h
      injection h with h1'
      injection h1' with h2' h3'
      subst h2'; subst h3'
      exact ⟨hσ, 0, by simp only [crossKindSubsetTest, if_pos h6]⟩
    · rw [if_neg h6] at h
      cases h1 : cmp a ca bobj .memberObject σ with
      | none => rw [h1] at h; exact absurd h (by simp)
      | some p1 =>
        obtain ⟨r1, σ1⟩ := p1
        rw [h1] at h
        obtain ⟨hσ1, g1, hg1⟩ := hcmp _ _ _ _ _ _ _ hσ h1
        cases r1 with
        | Equal =>
          injection h with h1'
          injection h1' with h2' h3'
          subst h2'; subst h3'
          exact ⟨hσ1, g1, by
            simp only [crossKindSubsetTest, if_neg h6, hg1]⟩
        | Subset =>
          injection h with h1'
          injection h1' with h2' h3'
          subst h2'; subst h3'
          exact ⟨hσ1, g1, by
            simp only [crossKindSubsetTest, if_neg h6, hg1]⟩
        | Invalid =>
          injection h with h1'
          injection h1' with h2' h3'
          subst h2'; subst h3'
          exact ⟨hσ1, g1, by
            simp only [crossKindSubsetTest, if_neg h6, hg1]⟩
  case call bcallee bargs btargs bopt =>
    simp only [crossKindSubsetTestC] at h
    cases h1 : cmp a ca bcallee .callCallee σ with
    | none => rw [h1] at h; exact absurd h (by simp)
    | some p1 =>
      obtain ⟨r1, σ1⟩ := p1
      rw [h1] at h
      obtain ⟨hσ1, g1, hg1⟩ := hcmp _ _ _ _ _ _ _ hσ h1
      cases r1 with
      | Equal =>
        injection h with h1'
        injection h1' with h2' h3'
        subst h2'; subst h3'
        exact ⟨hσ1, g1, by simp only [crossKindSubsetTest, hg1]⟩
      | Subset =>
        injection h with h1'
        injection h1' with h2' h3'
        subst h2'; subst h3'
        exact ⟨hσ1, g1, by simp only [crossKindSubsetTest, hg1]⟩
      | Invalid =>
        injection h with h1'
        injection h1' with h2' h3'
        subst h2'; subst h3'
        exact ⟨hσ1, g1, by simp only [crossKindSubsetTest, hg1]⟩
  all_goals
    simp only [crossKindSubsetTestC, Option.some.injEq, Prod.mk.injEq] at h
  all_goals
    obtain ⟨rfl, rfl⟩ := h
  all_goals
    exact ⟨hσ, 0, by simp [crossKindSubsetTest]⟩

/-- Threaded different-kind block: sound w.r.t. `compareNodesDiffKind`. -/
theorem compareNodesDiffKindC_sound {cmp : CmpCFun} (hcmp : CmpCSound cmp)
    (a : Node) (ca : ParentCtx) (b : Node) (cb : ParentCtx)
    (σ : CompareCache) (r : NodeComparisonResult) (σ' : CompareCache)
    (hσ : CacheConsistent σ)
    (h : compareNodesDiffKindC cmp a ca b cb σ = some (r, σ')) :
    CacheConsistent σ' ∧
      ∃ g, compareNodesDiffKind (compareNodesRec g) a ca b cb = some r := by
  simp only [compareNodesDiffKindC] at h
  cases hc1 : chainLookThrough a ca with
  | some e =>
    rw [hc1] at h
    obtain ⟨hσ', g, hg⟩ := hcmp _ _ _ _ _ _ _ hσ h
    exact ⟨hσ', g, by simp only [compareNodesDiffKind, hc1]; exact hg⟩
  | none =>
    rw [hc1] at h
    cases hc2 : chainLookThrough b cb with
    | some e =>
      rw [hc2] at h
      obtain ⟨hσ', g, hg⟩ := hcmp _ _ _ _ _ _ _ hσ h
      exact ⟨hσ', g, by simp only [compareNodesDiffKind, hc1, hc2]; exact hg⟩
    | none =>
      rw [hc2] at h
      cases hn1 : nonNullInner a with
      | some e =>
        rw [hn1] at h
        obtain ⟨hσ', g, hg⟩ := hcmp _ _ _ _ _ _ _ hσ h
        exact ⟨hσ', g, by
          simp only [compareNodesDiffKind, hc1, hc2, hn1]; exact hg⟩
      | none =>
        rw [hn1] at h
        cases hn2 : nonNullInner b with
        | some e =>
          rw [hn2] at h
          obtain ⟨hσ', g, hg⟩ := hcmp _ _ _ _ _ _ _ hσ h
          exact ⟨hσ', g, by
            simp only [compareNodesDiffKind, hc1, hc2, hn1, hn2]; exact hg⟩
        | none =>
          rw [hn2] at h
          by_cases h5 : isSubsetCompatibleKind (kindOf a) = true
          · rw [if_pos h5] at h
            obtain ⟨hσ', g, hg⟩ :=
              crossKindSubsetTestC_sound hcmp a ca b σ r σ' hσ h
            exact ⟨hσ', g, by
              simp only [compareNodesDiffKind, hc1, hc2, hn1, hn2,
                if_pos h5]
              exact hg⟩
          · rw [if_neg h5] at h
            injection h with h1'
            injection h1' with h2' h3'
            subst h2'; subst h3'
            exact ⟨hσ, 0, by
              simp only [compareNodesDiffKind, hc1, hc2, hn1, hn2,
                if_neg h5]⟩

/-- Threaded equal-kind switch: sound w.r.t. `compareNodesSameKind`. -/
theorem compareNodesSameKindC_sound {cmp : CmpCFun} (hcmp : CmpCSound cmp)
    (a : Node) (ca : ParentCtx) (b : Node) (cb : ParentCtx)
    (σ : CompareCache) (r : NodeComparisonResult) (σ' : CompareCache)
    (hσ : CacheConsistent σ)
    (h : compareNodesSameKindC cmp a ca b cb σ = some (r, σ')) :
    CacheConsistent σ' ∧
      ∃ g, compareNodesSameKind (compareNodesRec g) a ca b cb = some r := by
  cases a
  · -- ident
    cases b <;>
      (simp only [compareNodesSameKindC, Option.some.injEq,
         Prod.mk.injEq] at h
       obtain ⟨rfl, rfl⟩ := h
       exact ⟨hσ, 0, by simp [compareNodesSameKind]⟩)
  · -- privateIdent
    cases b <;>
      (simp only [compareNodesSameKindC, Option.some.injEq,
         Prod.mk.injEq] at h
       obtain ⟨rfl, rfl⟩ := h
       exact ⟨hσ, 0, by simp [compareNodesSameKind]⟩)
  · -- lit
    cases b <;>
      (simp only [compareNodesSameKindC, Option.some.injEq,
         Prod.mk.injEq] at h
       obtain ⟨rfl, rfl⟩ := h
       exact ⟨hσ, 0, by simp [compareNodesSameKind]⟩)
  · -- member
    rename_i aobj aprop acomputed aopt
    cases b <;> simp only [compareNodesSameKindC] at h <;>
      try (injection h with h1'; injection h1' with h2' h3';
           subst h2'; subst h3';
           exact ⟨hσ, 0, by simp [compareNodesSameKind]⟩)
    rename_i bobj bprop bcomputed bopt
    by_cases h6 : isPrivateIdentNode bprop = true
    · rw [if_pos h6] at h
      injection h with h1'
      injection h1' with h2' h3'
      subst h2'; subst h3'
      exact ⟨hσ, 0, by simp only [compareNodesSameKind, if_pos h6]⟩
    · rw [if_neg h6] at h
      cases h1 : cmp (Node.member aobj aprop acomputed aopt) ca
          bobj .memberObject σ with
      | none => rw [h1] at h; exact absurd h (by simp)
      | some p1 =>
        obtain ⟨r1, σ1⟩ := p1
        rw [h1] at h
        obtain ⟨hσ1, g1, hg1⟩ := hcmp _ _ _ _ _ _ _ hσ h1
        cases r1 with
        | Equal =>
          injection h with h1'
          injection h1' with h2' h3'
          subst h2'; subst h3'
          exact ⟨hσ1, g1, by
            simp only [compareNodesSameKind, if_neg h6, hg1]⟩
        | Subset =>
          injection h with h1'
          injection h1' with h2' h3'
          subst h2'; subst h3'
          exact ⟨hσ1, g1, by
            simp only [compareNodesSameKind, if_neg h6, hg1]⟩
        | Invalid =>
          simp only [] at h
          by_cases h7 : acomputed = bcomputed
          · rw [if_neg (by simp [h7])] at h
            cases h2 : cmp aobj .memberObject bobj .memberObject σ1 with
            | none => rw [h2] at h; exact absurd h (by simp)
            | some p2 =>
              obtain ⟨r2, σ2⟩ := p2
              rw [h2] at h
              obtain ⟨hσ2, g2, hg2⟩ := hcmp _ _ _ _ _ _ _ hσ1 h2
              cases r2 with
              | Equal =>
                obtain ⟨hσ3, g3, hg3⟩ := hcmp _ _ _ _ _ _ _ hσ2 h
                refine ⟨hσ3, max g1 (max g2 g3), ?_⟩
                have hg1' := compareNodesRec_mono_le
                  (by omega : g1 ≤ max g1 (max g2 g3)) _ _ _ _ _ hg1
                have hg2' := compareNodesRec_mono_le
                  (by omega : g2 ≤ max g1 (max g2 g3)) _ _ _ _ _ hg2
                have hg3' := compareNodesRec_mono_le
                  (by omega : g3 ≤ max g1 (max g2 g3)) _ _ _ _ _ hg3
                simp only [compareNodesSameKind, if_neg h6, hg1', hg2']
                rw [if_neg (by simp [h7])]
                exact hg3'
              | Subset =>
                injection h with h1'
                injection h1' with h2' h3'
                subst h2'; subst h3'
                refine ⟨hσ2, max g1 g2, ?_⟩
                have hg1' := compareNodesRec_mono_le
                  (by omega : g1 ≤ max g1 g2) _ _ _ _ _ hg1
                have hg2' := compareNodesRec_mono_le
                  (by omega : g2 ≤ max g1 g2) _ _ _ _ _ hg2
                simp only [compareNodesSameKind, if_neg h6, hg1', hg2']
                rw [if_neg (by simp [h7])]
              | Invalid =>
                injection h with h1'
                injection h1' with h2' h3'
                subst h2'; subst h3'
                refine ⟨hσ2, max g1 g2, ?_⟩
                have hg1' := compareNodesRec_mono_le
                  (by omega : g1 ≤ max g1 g2) _ _ _ _ _ hg1
                have hg2' := compareNodesRec_mono_le
                  (by omega : g2 ≤ max g1 g2) _ _ _ _ _ hg2
                simp only [compareNodesSameKind, if_neg h6, hg1', hg2']
                rw [if_neg (by simp [h7])]
          · rw [if_pos (by simp [h7])] at h
            injection h with h1'
            injection h1' with h2' h3'
            subst h2'; subst h3'
            exact ⟨hσ1, g1, by
              simp only [compareNodesSameKind, if_neg h6, hg1]
              rw [if_pos (show acomputed ≠ bcomputed by simp [h7])]⟩
  · -- call
    rename_i acallee aargs atargs aopt
    cases b <;> simp only [compareNodesSameKindC] at h <;>
      try (injection h with h1'; injection h1' with h2' h3';
           subst h2'; subst h3';
           exact ⟨hσ, 0, by simp [compareNodesSameKind]⟩)
    rename_i bcallee bargs btargs bopt
    cases h1 : cmp (Node.call acallee aargs atargs aopt) ca
        bcallee .callCallee σ with
    | none => rw [h1] at h; exact absurd h (by simp)
    | some p1 =>
      obtain ⟨r1, σ1⟩ := p1
      rw [h1] at h
      obtain ⟨hσ1, g1, hg1⟩ := hcmp _ _ _ _ _ _ _ hσ h1
      cases r1 with
      | Equal =>
        injection h with h1'
        injection h1' with h2' h3'
        subst h2'; subst h3'
        exact ⟨hσ1, g1, by simp only [compareNodesSameKind, hg1]⟩
      | Subset =>
        injection h with h1'
        injection h1' with h2' h3'
        subst h2'; subst h3'
        exact ⟨hσ1, g1, by simp only [compareNodesSameKind, hg1]⟩
      | Invalid =>
        simp only [] at h
        cases h2 : cmp acallee .callCallee bcallee .callCallee σ1 with
        | none => rw [h2] at h; exact absurd h (by simp)
        | some p2 =>
          obtain ⟨r2, σ2⟩ := p2
          rw [h2] at h
          obtain ⟨hσ2, g2, hg2⟩ := hcmp _ _ _ _ _ _ _ hσ1 h2
          cases r2 with
          | Subset =>
            injection h with h1'
            injection h1' with h2' h3'
            subst h2'; subst h3'
            refine ⟨hσ2, max g1 g2, ?_⟩
            have hg1' := compareNodesRec_mono_le
              (by omega : g1 ≤ max g1 g2) _ _ _ _ _ hg1
            have hg2' := compareNodesRec_mono_le
              (by omega : g2 ≤ max g1 g2) _ _ _ _ _ hg2
            simp only [compareNodesSameKind, hg1', hg2']
          | Invalid =>
            injection h with h1'
            injection h1' with h2' h3'
            subst h2'; subst h3'
            refine ⟨hσ2, max g1 g2, ?_⟩
            have hg1' := compareNodesRec_mono_le
              (by omega : g1 ≤ max g1 g2) _ _ _ _ _ hg1
            have hg2' := compareNodesRec_mono_le
              (by omega : g2 ≤ max g1 g2) _ _ _ _ _ hg2
            simp only [compareNodesSameKind, hg1', hg2']
          | Equal =>
            simp only [] at h
            cases h3 : compareArraysWithC
                (fun x y σ0 => cmp x .other y .other σ0) aargs bargs σ2 with
            | none => rw [h3] at h; exact absurd h (by simp)
            | some p3 =>
              obtain ⟨r3, σ3⟩ := p3
              rw [h3] at h
              obtain ⟨hσ3, g3, hg3⟩ :=
                compareArraysWithC_sound hcmp aargs bargs σ2 r3 σ3 hσ2 h3
              cases r3 with
              | Subset =>
                injection h with h1'
                injection h1' with h2' h3'
                subst h2'; subst h3'
                refine ⟨hσ3, max g1 (max g2 g3), ?_⟩
                have hg1' := compareNodesRec_mono_le
                  (by omega : g1 ≤ max g1 (max g2 g3)) _ _ _ _ _ hg1
                have hg2' := compareNodesRec_mono_le
                  (by omega : g2 ≤ max g1 (max g2 g3)) _ _ _ _ _ hg2
                have hg3' := compareArraysWith_mono
                  (fun x y w hw => compareNodesRec_mono_le
                    (by omega : g3 ≤ max g1 (max g2 g3)) _ _ _ _ _ hw)
                  aargs bargs _ hg3
                simp only [compareNodesSameKind, hg1', hg2', hg3']
              | Invalid =>
                injection h with h1'
                injection h1' with h2' h3'
                subst h2'; subst h3'
                refine ⟨hσ3, max g1 (max g2 g3), ?_⟩
                have hg1' := compareNodesRec_mono_le
                  (by omega : g1 ≤ max g1 (max g2 g3)) _ _ _ _ _ hg1
                have hg2' := compareNodesRec_mono_le
                  (by omega : g2 ≤ max g1 (max g2 g3)) _ _ _ _ _ hg2
                have hg3' := compareArraysWith_mono
                  (fun x y w hw => compareNodesRec_mono_le
                    (by omega : g3 ≤ max g1 (max g2 g3)) _ _ _ _ _ hw)
                  aargs bargs _ hg3
                simp only [compareNodesSameKind, hg1', hg2', hg3']
              | Equal =>
                simp only [] at h
                cases h4 : compareMaybeNodesC cmp atargs btargs σ3 with
                | none => rw [h4] at h; exact absurd h (by simp)
                | some p4 =>
                  obtain ⟨r4, σ4⟩ := p4
                  rw [h4] at h
                  obtain ⟨hσ4, g4, hg4⟩ :=
                    compareMaybeNodesC_sound hcmp atargs btargs σ3 r4 σ4
                      hσ3 h4
                  have hg1' := compareNodesRec_mono_le
                    (by omega : g1 ≤ max g1 (max g2 (max g3 g4)))
                    _ _ _ _ _ hg1
                  have hg2' := compareNodesRec_mono_le
                    (by omega : g2 ≤ max g1 (max g2 (max g3 g4)))
                    _ _ _ _ _ hg2
                  have hg3' := compareArraysWith_mono
                    (fun x y w hw => compareNodesRec_mono_le
                      (by omega : g3 ≤ max g1 (max g2 (max g3 g4)))
                      _ _ _ _ _ hw)
                    aargs bargs _ hg3
                  have hg4' := compareMaybeNodes_mono
                    (fun x cx y cy w hw => compareNodesRec_mono_le
                      (by omega : g4 ≤ max g1 (max g2 (max g3 g4)))
                      _ _ _ _ _ hw)
                    atargs btargs _ hg4
                  cases r4 with
                  | Equal =>
                    injection h with h1'
                    injection h1' with h2' h3'
                    subst h2'; subst h3'
                    refine ⟨hσ4, max g1 (max g2 (max g3 g4)), ?_⟩
                    simp only [compareNodesSameKind, hg1', hg2', hg3', hg4']
                  | Subset =>
                    injection h with h1'
                    injection h1' with h2' h3'
                    subst h2'; subst h3'
                    refine ⟨hσ4, max g1 (max g2 (max g3 g4)), ?_⟩
                    simp only [compareNodesSameKind, hg1', hg2', hg3', hg4']
                  | Invalid =>
                    injection h with h1'
                    injection h1' with h2' h3'
                    subst h2'; subst h3'
                    refine ⟨hσ4, max g1 (max g2 (max g3 g4)), ?_⟩
                    simp only [compareNodesSameKind, hg1', hg2', hg3', hg4']
  · -- chainExpr
    rename_i ae
    cases b <;> simp only [compareNodesSameKindC] at h <;>
      try (injection h with h1'; injection h1' with h2' h3';
           subst h2'; subst h3';
           exact ⟨hσ, 0, by simp [compareNodesSameKind]⟩)
    obtain ⟨hσ', g, hg⟩ := hcmp _ _ _ _ _ _ _ hσ h
    exact ⟨hσ', g, by simp only [compareNodesSameKind]; exact hg⟩
  · -- nonNullExpr
    rename_i ae
    cases b <;> simp only [compareNodesSameKindC] at h <;>
      try (injection h with h1'; injection h1' with h2' h3';
           subst h2'; subst h3';
           exact ⟨hσ, 0, by simp [compareNodesSameKind]⟩)
    obtain ⟨hσ', g, hg⟩ := visitSeqC_sound hcmp _ _ _ _ hσ h
    exact ⟨hσ', g, by simp only [compareNodesSameKind]; exact hg⟩
  · -- metaProperty
    rename_i am ap
    cases b <;> simp only [compareNodesSameKindC] at h <;>
      try (injection h with h1'; injection h1' with h2' h3';
           subst h2'; subst h3';
           exact ⟨hσ, 0, by simp [compareNodesSameKind]⟩)
    obtain ⟨hσ', g, hg⟩ := visitSeqC_sound hcmp _ _ _ _ hσ h
    exact ⟨hσ', g, by simp only [compareNodesSameKind]; exact hg⟩
  · -- binary
    rename_i op al ar
    cases b <;> simp only [compareNodesSameKindC] at h <;>
      try (injection h with h1'; injection h1' with h2' h3';
           subst h2'; subst h3';
           exact ⟨hσ, 0, by simp [compareNodesSameKind]⟩)
    obtain ⟨hσ', g, hg⟩ := visitSeqC_sound hcmp _ _ _ _ hσ h
    exact ⟨hσ', g, by simp only [compareNodesSameKind]; exact hg⟩
  · -- logical
    rename_i op al ar
    cases b <;> simp only [compareNodesSameKindC] at h <;>
      try (injection h with h1'; injection h1' with h2' h3';
           subst h2'; subst h3';
           exact ⟨hσ, 0, by simp [compareNodesSameKind]⟩)
    obtain ⟨hσ', g, hg⟩ := visitSeqC_sound hcmp _ _ _ _ hσ h
    exact ⟨hσ', g, by simp only [compareNodesSameKind]; exact hg⟩
  · -- unary
    rename_i op aa
    cases b <;> simp only [compareNodesSameKindC] at h <;>
      try (injection h with h1'; injection h1' with h2' h3';
           subst h2'; subst h3';
           exact ⟨hσ, 0, by simp [compareNodesSameKind]⟩)
    obtain ⟨hσ', g, hg⟩ := visitSeqC_sound hcmp _ _ _ _ hσ h
    exact ⟨hσ', g, by simp only [compareNodesSameKind]; exact hg⟩
  · -- conditional
    rename_i at' ac aa
    cases b <;> simp only [compareNodesSameKindC] at h <;>
      try (injection h with h1'; injection h1' with h2' h3';
           subst h2'; subst h3';
           exact ⟨hσ, 0, by simp [compareNodesSameKind]⟩)
    obtain ⟨hσ', g, hg⟩ := visitSeqC_sound hcmp _ _ _ _ hσ h
    exact ⟨hσ', g, by simp only [compareNodesSameKind]; exact hg⟩
  · -- templateLit
    rename_i ty aq ae
    cases b <;> simp only [compareNodesSameKindC] at h <;>
      try (injection h with h1'; injection h1' with h2' h3';
           subst h2'; subst h3';
           exact ⟨hσ, 0, by simp [compareNodesSameKind]⟩)
    rename_i ty' bq be
    by_cases h6 : aq = bq
    · rw [if_pos h6] at h
      obtain ⟨hσ', g, hg⟩ := hcmp _ _ _ _ _ _ _ hσ h
      exact ⟨hσ', g, by
        simp only [compareNodesSameKind, if_pos h6]
        exact hg⟩
    · rw [if_neg h6] at h
      injection h with h1'
      injection h1' with h2' h3'
      subst h2'; subst h3'
      exact ⟨hσ, 0, by simp only [compareNodesSameKind, if_neg h6]⟩
  · -- templateElem
    cases b <;>
      (simp only [compareNodesSameKindC, Option.some.injEq,
         Prod.mk.injEq] at h
       obtain ⟨rfl, rfl⟩ := h
       exact ⟨hσ, 0, by simp [compareNodesSameKind]⟩)
  · -- keyword
    simp only [compareNodesSameKindC, Option.some.injEq, Prod.mk.injEq] at h
    obtain ⟨rfl, rfl⟩ := h
    exact ⟨hσ, 0, by simp [compareNodesSameKind]⟩
  · -- assignmentExpr
    simp only [compareNodesSameKindC, Option.some.injEq, Prod.mk.injEq] at h
    obtain ⟨rfl, rfl⟩ := h
    exact ⟨hσ, 0, by simp [compareNodesSameKind]⟩
  · -- updateExpr
    simp only [compareNodesSameKindC, Option.some.injEq, Prod.mk.injEq] at h
    obtain ⟨rfl, rfl⟩ := h
    exact ⟨hσ, 0, by simp [compareNodesSameKind]⟩
  · -- yieldExpr
    simp only [compareNodesSameKindC, Option.some.injEq, Prod.mk.injEq] at h
    obtain ⟨rfl, rfl⟩ := h
    exact ⟨hσ, 0, by simp [compareNodesSameKind]⟩
  · -- allocExpr
    simp only [compareNodesSameKindC, Option.some.injEq, Prod.mk.injEq] at h
    obtain ⟨rfl, rfl⟩ := h
    exact ⟨hσ, 0, by simp [compareNodesSameKind]⟩
  · -- objectExpr
    simp only [compareNodesSameKindC, Option.some.injEq, Prod.mk.injEq] at h
    obtain ⟨rfl, rfl⟩ := h
    exact ⟨hσ, 0, by simp [compareNodesSameKind]⟩
  · -- unknownNode
    simp only [compareNodesSameKindC, Option.some.injEq, Prod.mk.injEq] at h
    obtain ⟨rfl, rfl⟩ := h
    exact ⟨hσ, 0, by simp [compareNodesSameKind]⟩

/-- Threaded one-step dispatch: sound w.r.t. one unfolding of the cacheless
recursion. -/
theorem compareNodesUncachedC_sound {cmp : CmpCFun} (hcmp : CmpCSound cmp)
    (a : Node) (ca : ParentCtx) (b : Node) (cb : ParentCtx)
    (σ : CompareCache) (r : NodeComparisonResult) (σ' : CompareCache)
    (hσ : CacheConsistent σ)
    (h : compareNodesUncachedC cmp a ca b cb σ = some (r, σ')) :
    CacheConsistent σ' ∧ ∃ g, compareNodesRec (g + 1) a ca b cb = some r := by
  simp only [compareNodesUncachedC] at h
  by_cases hk : kindOf a = kindOf b
  · rw [if_pos hk] at h
    obtain ⟨hσ', g, hg⟩ := compareNodesSameKindC_sound hcmp a ca b cb σ r σ' hσ h
    exact ⟨hσ', g, by rw [compareNodesRec_succ_same hk]; exact hg⟩
  · rw [if_neg hk] at h
    obtain ⟨hσ', g, hg⟩ := compareNodesDiffKindC_sound hcmp a ca b cb σ r σ' hσ h
    exact ⟨hσ', g, by rw [compareNodesRec_succ_diff hk]; exact hg⟩

/-- Memoization transparency of the caching `compareNodes` wrapper: starting
from a consistent cache, every answer it returns is an answer of the
cacheless recursion (at some fuel), and it leaves the cache consistent — so
within one pass, every repetition of the same query returns that same
answer. -/
theorem compareNodesCached_sound :
    ∀ (f : Nat) (oa ob : Option (Node × ParentCtx)) (σ : CompareCache)
      (r : NodeComparisonResult) (σ' : CompareCache),
      CacheConsistent σ →
      compareNodesCached f oa ob σ = some (r, σ') →
      CacheConsistent σ' ∧ ∃ g, compareNodesOptRec g oa ob = some r := by
  intro f
  induction f with
  | zero =>
    intro oa ob σ r σ' hσ h
    cases oa with
    | none =>
      cases ob with
      | none =>
        simp only [compareNodesCached, Option.some.injEq,
          Prod.mk.injEq] at h
        obtain ⟨rfl, rfl⟩ := h
        exact ⟨hσ, 0, rfl⟩
      | some pb =>
        simp only [compareNodesCached, Option.some.injEq,
          Prod.mk.injEq] at h
        obtain ⟨rfl, rfl⟩ := h
        exact ⟨hσ, 0, rfl⟩
    | some pa =>
      cases ob with
      | none =>
        simp only [compareNodesCached, Option.some.injEq,
          Prod.mk.injEq] at h
        obtain ⟨rfl, rfl⟩ := h
        obtain ⟨a, ca⟩ := pa
        exact ⟨hσ, 0, rfl⟩
      | some pb =>
        obtain ⟨a, ca⟩ := pa
        obtain ⟨b, cb⟩ := pb
        exact absurd h (by simp [compareNodesCached])
  | succ f ih =>
    intro oa ob σ r σ' hσ h
    cases oa with
    | none =>
      cases ob with
      | none =>
        simp only [compareNodesCached, Option.some.injEq,
          Prod.mk.injEq] at h
        obtain ⟨rfl, rfl⟩ := h
        exact ⟨hσ, 0, rfl⟩
      | some pb =>
        simp only [compareNodesCached, Option.some.injEq,
          Prod.mk.injEq] at h
        obtain ⟨rfl, rfl⟩ := h
        exact ⟨hσ, 0, rfl⟩
    | some pa =>
      cases ob with
      | none =>
        simp only [compareNodesCached, Option.some.injEq,
          Prod.mk.injEq] at h
        obtain ⟨rfl, rfl⟩ := h
        obtain ⟨a, ca⟩ := pa
        exact ⟨hσ, 0, rfl⟩
      | some pb =>
        obtain ⟨a, ca⟩ := pa
        obtain ⟨b, cb⟩ := pb
        simp only [compareNodesCached] at h
        cases hl : cacheLookup σ ((a, ca), (b, cb)) with
        | some r0 =>
          rw [hl] at h
          injection h with h1'
          injection h1' with h2' h3'
          subst h2'; subst h3'
          obtain ⟨e, hmem, hkey, hval⟩ := cacheLookup_mem hl
          obtain ⟨⟨⟨ea, eca⟩, ⟨eb, ecb⟩⟩, er⟩ := e
          simp only [Prod.mk.injEq] at hkey
          obtain ⟨⟨rfl, rfl⟩, rfl, rfl⟩ := hkey
          subst hval
          obtain ⟨g, hg⟩ := hσ _ hmem
          exact ⟨hσ, g, hg⟩
        | none =>
          rw [hl] at h
          cases hu : compareNodesUncachedC
              (fun x cx y cy σ0 =>
                compareNodesCached f (Option.some (x, cx))
                  (Option.some (y, cy)) σ0) a ca b cb σ with
          | none => rw [hu] at h; exact absurd h (by simp)
          | some p =>
            obtain ⟨r1, σ1⟩ := p
            rw [hu] at h
            injection h with h1'
            injection h1' with h2' h3'
            subst h2'; subst h3'
            have hcmp : CmpCSound
                (fun x cx y cy σ0 =>
                  compareNodesCached f (Option.some (x, cx))
                    (Option.some (y, cy)) σ0) := by
              intro x cx y cy σ0 rr σσ hc hcall
              obtain ⟨hc', g, hg⟩ := ih _ _ _ _ _ hc hcall
              exact ⟨hc', g, hg⟩
            obtain ⟨hσ1, g, hg⟩ :=
              compareNodesUncachedC_sound hcmp a ca b cb σ r1 σ1 hσ hu
            refine ⟨?_, g + 1, hg⟩
            intro e he
            rcases List.mem_cons.mp he with rfl | he'
            · exact ⟨g + 1, hg⟩
            · exact hσ1 e he'

/-! ## The claims -/

/-- C1 (corrected): comparator reflexivity holds on the chainable nodes —
for every `GoodNode` expression `A` (no allocation-producing kinds,
assignments, updates, yields, template literals, unregistered kinds, private
member properties, or chain wrappers in member-object/callee position),
`compareNodes(A, A)` terminates and returns `Equal`.  Unrestricted
reflexivity is refuted by `claim_C1_counterexample`. -/
theorem claim_C1 (a : Node) (h : GoodNode a = true) :
    ∃ f, compareNodesRec f a .other a .other = some .Equal :=
  goodCompareRefl (sizeOf a) a .other rfl h (Or.inl rfl)

/-- Witness for C1: reflexivity at the chainable node `a.b`. -/
theorem claim_C1_witness :
    GoodNode (Node.member (Node.ident "a") (Node.ident "b") false false) =
      true ∧
    ∃ f, compareNodesRec f
      (Node.member (Node.ident "a") (Node.ident "b") false false) .other
      (Node.member (Node.ident "a") (Node.ident "b") false false) .other =
      some .Equal :=
  ⟨by decide, claim_C1 _ (by decide)⟩

/-- Counterexample to C1 as stated: the empty object literal compares
`Invalid` — never `Equal` — against itself (`ObjectExpression` is an
allocation-producing kind). -/
theorem claim_C1_counterexample :
    compareNodesRec 1 emptyObj .other emptyObj .other = some .Invalid ∧
    ¬∃ g, compareNodesRec g emptyObj .other emptyObj .other =
      some .Equal := by
  refine ⟨by decide, ?_⟩
  rintro ⟨g, hg⟩
  exact absurd
    (compareNodesRec_unique
      (show compareNodesRec 1 emptyObj .other emptyObj .other =
        some .Invalid by decide) hg)
    (by decide)

/-- C2 (corrected): `Subset` soundness — whenever the comparison answers
`Subset`, the right node peeled of zero or more trailing member/call/wrapper
layers yields a node to which the left node relates by `SubsetEv`: `Equal`
at the positions the recursion used, or (computed-member path) member
accesses with `Equal` objects and `Subset` properties, possibly under the
left node's own transparent wrappers.  The stronger claim — a peel always
comparing `Equal` — is refuted by `claim_C2_counterexample`. -/
theorem claim_C2 (f : Nat) (a : Node) (ca : ParentCtx) (b : Node)
    (cb : ParentCtx) (h : compareNodesRec f a ca b cb = some .Subset) :
    ∃ nn, Peeled b nn ∧ SubsetEv a nn :=
  subsetSound f a ca b cb h

/-- Witness for C2: `a` is a `Subset` of `a.b`. -/
theorem claim_C2_witness :
    compareNodesRec 10 (Node.ident "a") .other
      (Node.member (Node.ident "a") (Node.ident "b") false false) .other =
      some .Subset ∧
    ∃ nn, Peeled (Node.member (Node.ident "a") (Node.ident "b") false false)
      nn ∧ SubsetEv (Node.ident "a") nn :=
  ⟨by decide, claim_C2 10 (Node.ident "a") .other
    (Node.member (Node.ident "a") (Node.ident "b") false false) .other
    (by decide)⟩

/-- Counterexample to C2 as stated: `compareNodes(a[x], a[x.y])` answers
`Subset`, but no peel of `a[x.y]` (namely `a[x.y]` itself or `a`) compares
`Equal` to `a[x]` at any fuel — the `Subset` arises from the
computed-property path, which compares the properties `x` and `x.y` as
`Subset`, not `Equal`. -/
theorem claim_C2_counterexample :
    compareNodesRec 10 memAX .other memAXY .other = some .Subset ∧
    ¬∃ nn, Peeled memAXY nn ∧
      ∃ g, compareNodesRec g memAX .other nn .other = some .Equal := by
  refine ⟨by decide, ?_⟩
  rintro ⟨nn, hP, g, hg⟩
  cases hP with
  | refl =>
    exact absurd
      (compareNodesRec_unique
        (show compareNodesRec 10 memAX .other memAXY .other =
          some .Subset by decide) hg)
      (by decide)
  | member _ _ _ hP' =>
    cases hP' with
    | refl =>
      exact absurd
        (compareNodesRec_unique
          (show compareNodesRec 10 memAX .other (Node.ident "a") .other =
            some .Invalid by decide) hg)
        (by decide)

/-- C3 (confirmed): two nodes of allocation-producing or mutation kinds
(array/object/class/function/arrow literals, `new`, JSX, assignments,
updates, yields) always compare `Invalid`, at every context and fuel that
completes a step — even when structurally identical. -/
theorem claim_C3 (a b : Node) (ca cb : ParentCtx) (f : Nat)
    (ha : isAllocationOrMutationKind a = true)
    (hb : isAllocationOrMutationKind b = true) :
    compareNodesRec (f + 1) a ca b cb = some .Invalid := by
  by_cases hk : kindOf a = kindOf b
  · rw [compareNodesRec_succ_same hk]
    cases a <;> simp only [isAllocationOrMutationKind] at ha <;>
      first
      | (exact absurd ha (by decide))
      | simp [compareNodesSameKind]
  · rw [compareNodesRec_succ_diff hk]
    have h1 : chainLookThrough a ca = none := by
      cases a <;> simp_all [chainLookThrough, isAllocationOrMutationKind]
    have h2 : chainLookThrough b cb = none := by
      cases b <;> simp_all [chainLookThrough, isAllocationOrMutationKind]
    have h3 : nonNullInner a = none := by
      cases a <;> simp_all [nonNullInner, isAllocationOrMutationKind]
    have h4 : nonNullInner b = none := by
      cases b <;> simp_all [nonNullInner, isAllocationOrMutationKind]
    have h5 : ¬isSubsetCompatibleKind (kindOf a) = true := by
      cases a <;>
        simp_all [isSubsetCompatibleKind, kindOf, isAllocationOrMutationKind]
    simp only [compareNodesDiffKind, h1, h2, h3, h4]
    rw [if_neg h5]

/-- Witness for C3: two empty object literals compare `Invalid`. -/
theorem claim_C3_witness :
    isAllocationOrMutationKind emptyObj = true ∧
    compareNodesRec 1 emptyObj .other emptyObj .other = some .Invalid :=
  ⟨by decide, claim_C3 _ _ _ _ 0 (by decide) (by decide)⟩

/-- C4 (code bug): the comparator is not total.  Comparing a template
literal against itself re-enters `compareNodes` on the identical pair (the
quasi lists are reference-equal), so the recursion never terminates: the
fuelled denotation is `none` at every fuel.  The unknown-kind half of the
claim does hold — an unregistered node kind resolves to `Invalid`. -/
theorem claim_C4 :
    (∀ f, compareNodesRec f tmplA .other tmplA .other = none) ∧
    compareNodesRec 1 (Node.unknownNode "Unknown") .other
      (Node.unknownNode "Unknown") .other = some .Invalid := by
  refine ⟨?_, by decide⟩
  intro f
  induction f with
  | zero => rfl
  | succ f ih =>
    rw [compareNodesRec_succ_same (by rfl)]
    simp only [compareNodesSameKind, tmplA]
    rw [if_pos trivial]
    exact ih

/-- C5 (code bug): two distinct template-literal nodes with element-wise
equal cooked quasi values and equal (empty) substitution lists compare
`Invalid` — not `Equal` as claimed — because the quasi check compares
`TemplateElement` references (object identity), which differ across
distinct nodes. -/
theorem claim_C5 :
    (∀ f, compareNodesRec (f + 1) tmplA .other tmplA2 .other =
      some .Invalid) ∧
    List.map TElem.cooked [(⟨0, Option.some "a"⟩ : TElem)] =
      List.map TElem.cooked [⟨1, Option.some "a"⟩] := by
  refine ⟨?_, by decide⟩
  intro f
  rw [compareNodesRec_succ_same (by rfl)]
  simp only [compareNodesSameKind, tmplA, tmplA2]
  rw [if_neg (by decide)]

/-- C6 (confirmed): memoization transparency — starting from a cache whose
entries record what the cacheless recursion computes, every answer of the
memoizing `compareNodes` wrapper is an answer of the cacheless recursion on
the same ordered pair, and the updated cache is again consistent; hence
within one pass repeated queries of the same ordered pair return the
identical result (the cached value). -/
theorem claim_C6 (f : Nat) (oa ob : Option (Node × ParentCtx))
    (σ : CompareCache) (r : NodeComparisonResult) (σ' : CompareCache)
    (hσ : CacheConsistent σ)
    (h : compareNodesCached f oa ob σ = some (r, σ')) :
    CacheConsistent σ' ∧ ∃ g, compareNodesOptRec g oa ob = some r :=
  compareNodesCached_sound f oa ob σ r σ' hσ h

/-- Witness for C6: a first query on an empty cache computes `Equal` for
`(a, a)` and stores it. -/
theorem claim_C6_witness :
    CacheConsistent [] ∧
    compareNodesCached 1 (Option.some (Node.ident "a", ParentCtx.other))
      (Option.some (Node.ident "a", ParentCtx.other)) [] =
      some (.Equal,
        [(((Node.ident "a", ParentCtx.other),
           (Node.ident "a", ParentCtx.other)), .Equal)]) ∧
    (CacheConsistent
        [(((Node.ident "a", ParentCtx.other),
           (Node.ident "a", ParentCtx.other)), .Equal)] ∧
      ∃ g, compareNodesOptRec g
        (Option.some (Node.ident "a", ParentCtx.other))
        (Option.some (Node.ident "a", ParentCtx.other)) = some .Equal) := by
  have hempty : CacheConsistent ([] : CompareCache) := by
    intro e he
    exact absurd he (by simp)
  exact ⟨hempty, by decide, claim_C6 1 _ _ _ _ _ hempty (by decide)⟩

/-- C7 (corrected): a closed sub-chain of at least two accepted units emits
exactly one diagnostic, spanning from the sub-chain's first unit's source
start to its last unit's source end, and shorter sub-chains emit nothing —
but the sub-chain opened after an `Equal`-merge starts at the merged pair's
last operand, so for `x !== null && x !== undefined && x.y` the single
diagnostic starts at `x !== undefined` (offset 14), not at the run's start
(offset 0, see `claim_C7_counterexample`). -/
theorem claim_C7 (a b : ValidOperand) (rest : List ValidOperand) :
    (maybeReport (a :: b :: rest)).length = 1 ∧
    maybeReport (a :: b :: rest) =
      [⟨a.nodeStart, ((a :: b :: rest).getLastD a).nodeEnd⟩] ∧
    maybeReport [a] = [] ∧
    maybeReport ([] : List ValidOperand) = [] ∧
    analyzeChain .andOp (compareNamesFuelled 10)
      [andUnitNull, andUnitUndef, andUnitBool] = [⟨14, 36⟩] := by
  refine ⟨rfl, ?_, rfl, rfl, by decide⟩
  simp [maybeReport, List.getLastD_cons]

/-- Counterexample to C7 as stated: for
`x !== null && x !== undefined && x.y` (spanning offsets 0–36, first unit
starting at 0) the analyzer's diagnostic does not start at the first unit's
start — it reports 14–36. -/
theorem claim_C7_counterexample :
    analyzeChain .andOp (compareNamesFuelled 10)
      [andUnitNull, andUnitUndef, andUnitBool] ≠
      [⟨andUnitNull.nodeStart, andUnitBool.nodeEnd⟩] ∧
    analyzeChain .andOp (compareNamesFuelled 10)
      [andUnitNull, andUnitUndef, andUnitBool] = [⟨14, 36⟩] :=
  ⟨by decide, by decide⟩

/-- C8 (confirmed): in an `||` run, a `StrictEqualNull` (resp.
`StrictEqualUndefined`) operand whose successor does not pair up (the
matching counterpart kind on an `Equal` compared name) is rejected outright
(`none`), as is one with no successor; consequently
`x === null || x === undefined` (and the reversed
`x === undefined || x === null`) merges into a single unit and the run
produces no diagnostic. -/
theorem claim_C8 (cmp : Node → Node → NodeComparisonResult)
    (op n : ValidOperand)
    (h1 : op.comparisonType = .strictEqualNull ∨
          op.comparisonType = .strictEqualUndefined)
    (h2 : ¬(op.comparisonType = .strictEqualNull ∧
            n.comparisonType = .strictEqualUndefined ∧
            cmp op.comparedName n.comparedName = .Equal))
    (h3 : ¬(op.comparisonType = .strictEqualUndefined ∧
            n.comparisonType = .strictEqualNull ∧
            cmp op.comparedName n.comparedName = .Equal)) :
    analyzeOrChainOperand cmp op (Option.some n) = Option.none ∧
    analyzeOrChainOperand cmp op Option.none = Option.none ∧
    analyzeChain .orOp (compareNamesFuelled 10) [orUnitNull, orUnitUndef] =
      [] ∧
    analyzeChain .orOp (compareNamesFuelled 10)
      [orUnitUndefFirst, orUnitNullSecond] = [] := by
  refine ⟨?_, ?_, by decide, by decide⟩
  · rcases h1 with h1 | h1
    · simp only [analyzeOrChainOperand, h1]
      rw [if_neg (fun hc => h2 ⟨h1, hc.1, hc.2⟩)]
    · simp only [analyzeOrChainOperand, h1]
      rw [if_neg (fun hc => h3 ⟨h1, hc.1, hc.2⟩)]
  · rcases h1 with h1 | h1 <;> simp only [analyzeOrChainOperand, h1]

/-- Witness for C8: `x === null` followed by the truthiness check `x.y` is
rejected. -/
theorem claim_C8_witness :
    (orUnitNull.comparisonType = .strictEqualNull ∨
     orUnitNull.comparisonType = .strictEqualUndefined) ∧
    ¬(orUnitNull.comparisonType = .strictEqualNull ∧
      andUnitBoolShort.comparisonType = .strictEqualUndefined ∧
      compareNamesFuelled 10 orUnitNull.comparedName
        andUnitBoolShort.comparedName = .Equal) ∧
    ¬(orUnitNull.comparisonType = .strictEqualUndefined ∧
      andUnitBoolShort.comparisonType = .strictEqualNull ∧
      compareNamesFuelled 10 orUnitNull.comparedName
        andUnitBoolShort.comparedName = .Equal) ∧
    (analyzeOrChainOperand (compareNamesFuelled 10) orUnitNull
        (Option.some andUnitBoolShort) = Option.none ∧
      analyzeOrChainOperand (compareNamesFuelled 10) orUnitNull
        Option.none = Option.none ∧
      analyzeChain .orOp (compareNamesFuelled 10)
        [orUnitNull, orUnitUndef] = [] ∧
      analyzeChain .orOp (compareNamesFuelled 10)
        [orUnitUndefFirst, orUnitNullSecond] = []) :=
  ⟨by decide, by decide, by decide,
    claim_C8 _ _ _ (by decide) (by decide) (by decide)⟩

/-- C9 (confirmed): when the empty-object fallback guard matches (an
`||`/`??` combinator whose right operand is an empty object literal, under a
non-optional member-access parent), the combinator is recorded in
`seenLogicals`, so the chain-analysis visitor skips it; and the offered
rewrite replaces the access with `left?.prop` / `left?.[prop]`,
parenthesizing `left` exactly when its operator binds looser than member
access: `(foo || {}).bar` becomes `foo?.bar`, `((a ? b : c) || {}).bar`
becomes `(a ? b : c)?.bar`, `(foo || {})[bar]` becomes `foo?.[bar]`. -/
theorem claim_C9 (node : Node) (parent : Option Node) (seen : List Node)
    (h : (emptyObjectFallbackFix node parent).isSome = true) :
    chainAnalyzerSkips (seenAfterEmptyObjectCheck seen node parent) node =
      true ∧
    emptyObjectFallbackFix emptyOrFoo (Option.some emptyOrFooAccess) =
      Option.some "foo?.bar" ∧
    emptyObjectFallbackFix emptyOrCond (Option.some emptyOrCondAccess) =
      Option.some "(a ? b : c)?.bar" ∧
    emptyObjectFallbackFix emptyOrFoo
      (Option.some emptyOrFooComputedAccess) = Option.some "foo?.[bar]" := by
  refine ⟨?_, by decide, by decide, by decide⟩
  simp [chainAnalyzerSkips, seenAfterEmptyObjectCheck, h, List.contains_cons]

/-- Witness for C9: the guard matches on `foo || {}` under `.bar`. -/
theorem claim_C9_witness :
    (emptyObjectFallbackFix emptyOrFoo
      (Option.some emptyOrFooAccess)).isSome = true ∧
    (chainAnalyzerSkips
        (seenAfterEmptyObjectCheck [] emptyOrFoo
          (Option.some emptyOrFooAccess)) emptyOrFoo = true ∧
      emptyObjectFallbackFix emptyOrFoo (Option.some emptyOrFooAccess) =
        Option.some "foo?.bar" ∧
      emptyObjectFallbackFix emptyOrCond (Option.some emptyOrCondAccess) =
        Option.some "(a ? b : c)?.bar" ∧
      emptyObjectFallbackFix emptyOrFoo
        (Option.some emptyOrFooComputedAccess) =
        Option.some "foo?.[bar]") :=
  ⟨by decide, claim_C9 _ _ [] (by decide)⟩

/-- C10 (confirmed, implicit asymmetry with the `||` analyzer): in an `&&`
run, a `NotStrictEqualNull` (resp. `NotStrictEqualUndefined`) operand not
immediately followed by its matching counterpart on an `Equal` compared
name is still accepted as a singleton unit; hence `x !== null && x.y` (and
likewise `x !== undefined && x.y`) forms a length-2 chain and yields a
diagnostic. -/
theorem claim_C10 (cmp : Node → Node → NodeComparisonResult)
    (op : ValidOperand) (next : Option ValidOperand)
    (h1 : op.comparisonType = .notStrictEqualNull ∨
          op.comparisonType = .notStrictEqualUndefined)
    (h2 : ∀ n, next = Option.some n →
      ¬(op.comparisonType = .notStrictEqualNull ∧
        n.comparisonType = .notStrictEqualUndefined ∧
        cmp op.comparedName n.comparedName = .Equal) ∧
      ¬(op.comparisonType = .notStrictEqualUndefined ∧
        n.comparisonType = .notStrictEqualNull ∧
        cmp op.comparedName n.comparedName = .Equal)) :
    analyzeAndChainOperand cmp op next = Option.some [op] ∧
    analyzeChain .andOp (compareNamesFuelled 10)
      [andUnitNull, andUnitBoolShort] = [⟨0, 17⟩] ∧
    analyzeChain .andOp (compareNamesFuelled 10)
      [andUnitUndefShort, andUnitBoolAfterUndef] = [⟨0, 22⟩] := by
  refine ⟨?_, by decide, by decide⟩
  cases next with
  | none => rcases h1 with h1 | h1 <;> simp only [analyzeAndChainOperand, h1]
  | some n =>
    obtain ⟨h2a, h2b⟩ := h2 n rfl
    rcases h1 with h1 | h1
    · simp only [analyzeAndChainOperand, h1]
      rw [if_neg (fun hc => h2a ⟨h1, hc.1, hc.2⟩)]
    · simp only [analyzeAndChainOperand, h1]
      rw [if_neg (fun hc => h2b ⟨h1, hc.1, hc.2⟩)]

/-- Witness for C10: `x !== null` followed by the truthiness check `x.y`
stays a singleton unit. -/
theorem claim_C10_witness :
    (andUnitNull.comparisonType = .notStrictEqualNull ∨
     andUnitNull.comparisonType = .notStrictEqualUndefined) ∧
    (¬(andUnitNull.comparisonType = .notStrictEqualNull ∧
       andUnitBoolShort.comparisonType = .notStrictEqualUndefined ∧
       compareNamesFuelled 10 andUnitNull.comparedName
         andUnitBoolShort.comparedName = .Equal) ∧
     ¬(andUnitNull.comparisonType = .notStrictEqualUndefined ∧
       andUnitBoolShort.comparisonType = .notStrictEqualNull ∧
       compareNamesFuelled 10 andUnitNull.comparedName
         andUnitBoolShort.comparedName = .Equal)) ∧
    (analyzeAndChainOperand (compareNamesFuelled 10) andUnitNull
        (Option.some andUnitBoolShort) = Option.some [andUnitNull] ∧
      analyzeChain .andOp (compareNamesFuelled 10)
        [andUnitNull, andUnitBoolShort] = [⟨0, 17⟩] ∧
      analyzeChain .andOp (compareNamesFuelled 10)
        [andUnitUndefShort, andUnitBoolAfterUndef] = [⟨0, 22⟩]) := by
  refine ⟨by decide, ⟨by decide, by decide⟩,
    claim_C10 _ _ _ (Or.inl (by decide)) ?_⟩
  intro n hn
  injection hn with hn
  subst hn
  exact ⟨by decide, by decide⟩
